import Mathlib

/-!
# The permission monitor of `main.go`

A shallow embedding of the snapshot / diff / persist cycle of the monitor and the theorems
that settle its specification.

* A Go string is the list of its bytes; `fmt.Sprintf` with `%s` verbs and `+` are
  concatenation.  The constant texts of the program that are only logged (formats, messages,
  the name of the state file) are kept as Lean strings.
* A `map[string]bool` is the list of its entries in the order a `range` loop visits them.
  Go leaves that order unspecified, so statements about `detectChanges` hold for every list.
* The database and the file system are inputs: a cycle receives the answers of the three
  queries and the outcome of the write of the state file.
* The calls of the `log` package and of `os.WriteFile` are recorded as events.
-/

/-- A Go string: the list of its bytes, each a number below 256.  Nothing below needs the
bound, so it is not carried along. -/
abbrev GoString := List Nat

/-- The constant `utf8.RuneError`, U+FFFD. -/
def runeError : Nat := 0xFFFD

/-- The function `utf8.EncodeRune`: the UTF-8 bytes of a rune, those of U+FFFD for a surrogate
or a value above U+10FFFF.  The sums are the bitwise ors of the Go code, whose operands have no
bit in common. -/
def encodeRune (r : Nat) : List Nat :=
  if r ≤ 0x7F then [r]
  else if r ≤ 0x7FF then [0xC0 + r / 64, 0x80 + r % 64]
  else if 0x10FFFF < r ∨ (0xD800 ≤ r ∧ r ≤ 0xDFFF) then [0xEF, 0xBF, 0xBD]
  else if r ≤ 0xFFFF then [0xE0 + r / 4096, 0x80 + r / 64 % 64, 0x80 + r % 64]
  else [0xF0 + r / 262144, 0x80 + r / 4096 % 64, 0x80 + r / 64 % 64, 0x80 + r % 64]

/-- The function `utf8.DecodeRuneInString`: the rune at the head of the bytes and its width;
`(runeError, 1)` when the head is not a well-formed encoding.  The tables `first` and
`acceptRanges` are written out as comparisons. -/
def decodeRune (s : List Nat) : Nat × Nat :=
  match s with
  | [] => (runeError, 0)
  | s0 :: t =>
    if s0 < 0x80 then (s0, 1)
    else if s0 < 0xC2 ∨ 0xF4 < s0 then (runeError, 1)
    else
      let sz := if s0 < 0xE0 then 2 else if s0 < 0xF0 then 3 else 4
      let lo := if s0 = 0xE0 then 0xA0 else if s0 = 0xF0 then 0x90 else 0x80
      let hi := if s0 = 0xED then 0x9F else if s0 = 0xF4 then 0x8F else 0xBF
      if s.length < sz then (runeError, 1)
      else
        match t with
        | [] => (runeError, 1)
        | s1 :: t1 =>
          if s1 < lo ∨ hi < s1 then (runeError, 1)
          else if sz ≤ 2 then (s0 % 32 * 64 + s1 % 64, 2)
          else
            match t1 with
            | [] => (runeError, 1)
            | s2 :: t2 =>
              if s2 < 0x80 ∨ 0xBF < s2 then (runeError, 1)
              else if sz ≤ 3 then (s0 % 16 * 4096 + s1 % 64 * 64 + s2 % 64, 3)
              else
                match t2 with
                | [] => (runeError, 1)
                | s3 :: _ =>
                  if s3 < 0x80 ∨ 0xBF < s3 then (runeError, 1)
                  else (s0 % 8 * 262144 + s1 % 64 * 4096 + s2 % 64 * 64 + s3 % 64, 4)

/-- The Go string of a text: its UTF-8 bytes.  It gives the string literals of the program. -/
def str (t : String) : GoString := t.data.flatMap (fun c => encodeRune c.toNat)

/-- The bytes are well-formed UTF-8: they are the encoding of a text. -/
def ValidUTF8 (s : GoString) : Prop := ∃ t : String, s = str t

/-- A Go `map[string]bool`, as the list of its entries in the order a `range` loop
visits them.  The order is arbitrary: results are stated for every list.  A nil map is the
empty list, like the empty map: the program only takes `len`, an index or a `range` of a map
that may be nil, and assigns a fresh map before it writes to it or saves it. -/
abbrev GoMap := List (GoString × Bool)

namespace GoMap

/-- The keys of the map, in iteration order. -/
def keys (m : GoMap) : List GoString := m.map Prod.fst

/-- The Go expression `m[k]`: the stored value, or the zero value `false` when `k` is absent. -/
def index (m : GoMap) (k : GoString) : Bool :=
  match m.find? (fun e => e.1 = k) with
  | some e => e.2
  | none => false

/-- The Go statement `m[k] = v`: overwrite the entry of `k`, or add one. -/
def set : GoMap → GoString → Bool → GoMap
  | [], k, v => [(k, v)]
  | e :: m, k, v => if e.1 = k then (k, v) :: m else e :: set m k v

/-- A well-formed map holds each key once. -/
def WF (m : GoMap) : Prop := m.keys.Nodup

/-- The map is used as a set: every stored value is `true`. -/
def AllTrue (m : GoMap) : Prop := ∀ e ∈ m, e.2 = true

instance (m : GoMap) : Decidable m.WF := by
  unfold WF; infer_instance

instance (m : GoMap) : Decidable m.AllTrue := by
  unfold AllTrue; infer_instance

end GoMap

/-- The function `detectChanges` of `main.go`: one pass over `new`, then one pass over `old`,
each appending to `changes`. -/
def detectChanges (old new : GoMap) : List GoString :=
  let changes : List GoString := []
  let changes := new.foldl
    (fun changes e => if !old.index e.1 then changes ++ [str "ADICIONADO: " ++ e.1] else changes)
    changes
  let changes := old.foldl
    (fun changes e => if !new.index e.1 then changes ++ [str "REMOVIDO: " ++ e.1] else changes)
    changes
  changes

/-- An entry tagged as an addition. -/
def isAddition (s : GoString) : Prop := ∃ k, s = str "ADICIONADO: " ++ k

/-- An entry tagged as a removal. -/
def isRemoval (s : GoString) : Prop := ∃ k, s = str "REMOVIDO: " ++ k

/-- The additions of `detectChanges`: the entries of `new` whose key is absent or false in `old`. -/
def additions (old new : GoMap) : List GoString :=
  (new.filter (fun e => !old.index e.1)).map (fun e => str "ADICIONADO: " ++ e.1)

/-- The removals of `detectChanges`: the entries of `old` whose key is absent or false in `new`. -/
def removals (old new : GoMap) : List GoString :=
  (old.filter (fun e => !new.index e.1)).map (fun e => str "REMOVIDO: " ++ e.1)

/-- A row of one of the three catalog queries of `checkPermissions`. -/
inductive PrivilegeFact where
  | table (grantee privilege schema table : GoString)
  | schema (grantee privilege schema : GoString)
  | database (rolname datname : GoString)
  deriving DecidableEq

/-- The key of a table row: `fmt.Sprintf("TABLE:%s:%s:%s:%s", grantee, privilege, schema, table)`. -/
def tableKey (grantee privilege schema table : GoString) : GoString :=
  str "TABLE:" ++ grantee ++ str ":" ++ privilege ++ str ":" ++ schema ++ str ":" ++ table

/-- The key of a schema row: `fmt.Sprintf("SCHEMA:%s:%s:%s", grantee, privilege, schema)`. -/
def schemaKey (grantee privilege schema : GoString) : GoString :=
  str "SCHEMA:" ++ grantee ++ str ":" ++ privilege ++ str ":" ++ schema

/-- The key of a database row: `fmt.Sprintf("DATABASE:%s:CONNECT:%s", rolname, datname)`. -/
def databaseKey (rolname datname : GoString) : GoString :=
  str "DATABASE:" ++ rolname ++ str ":CONNECT:" ++ datname

namespace PrivilegeFact

/-- The key `checkPermissions` stores for a row. -/
def key : PrivilegeFact → GoString
  | table g p s t => tableKey g p s t
  | schema g p s => schemaKey g p s
  | database r d => databaseKey r d

/-- The kind of a fact: 0 for TABLE, 1 for SCHEMA, 2 for DATABASE. -/
def kind : PrivilegeFact → Nat
  | table _ _ _ _ => 0
  | schema _ _ _ => 1
  | database _ _ => 2

end PrivilegeFact

/-- The string holds no separator character `:` (the byte 58). -/
def noColon (s : GoString) : Prop := 58 ∉ s

instance (s : GoString) : Decidable (noColon s) := by
  unfold noColon; infer_instance

namespace PrivilegeFact

/-- No field of the fact holds a `:`. -/
def fieldsNoColon : PrivilegeFact → Prop
  | table g p s t => noColon g ∧ noColon p ∧ noColon s ∧ noColon t
  | schema g p s => noColon g ∧ noColon p ∧ noColon s
  | database r d => noColon r ∧ noColon d

/-- No field other than the last one of the format holds a `:`. -/
def leadingFieldsNoColon : PrivilegeFact → Prop
  | table g p s _ => noColon g ∧ noColon p ∧ noColon s
  | schema g p _ => noColon g ∧ noColon p
  | database r _ => noColon r

instance (f : PrivilegeFact) : Decidable f.fieldsNoColon := by
  cases f <;> unfold fieldsNoColon <;> infer_instance

instance (f : PrivilegeFact) : Decidable f.leadingFieldsNoColon := by
  cases f <;> unfold leadingFieldsNoColon <;> infer_instance

end PrivilegeFact

/-! ## The package `encoding/json` on a `map[string]bool`

The two calls of the program into the standard library, `json.MarshalIndent` and
`json.Unmarshal`, written after the library for the one type they are used at.  The text of an
error stands for the error value; its wording is not part of any statement. -/

/-- The table `hex` of `encoding/json`: the digit of a nibble. -/
def hexDigit (n : Nat) : Nat := if n < 10 then 0x30 + n else 0x57 + n

/-- The table `htmlSafeSet` of `encoding/json` on a byte below 0x80: every byte from the space
on except the quote, `&`, `<`, `>` and the backslash. -/
def htmlSafe (b : Nat) : Bool :=
  decide (0x20 ≤ b) && b != 0x22 && b != 0x26 && b != 0x3C && b != 0x3E && b != 0x5C

/-- What `appendString` (with HTML escaping, as `Marshal` calls it) writes for a byte below
0x80: `b / 16` and `b % 16` are `b>>4` and `b&0xF`.  Releases before Go 1.22 write backspace
and form feed with the six-byte escape instead, which is read back the same way. -/
def appendStringByte (b : Nat) : List Nat :=
  if htmlSafe b then [b]
  else if b = 0x5C ∨ b = 0x22 then [0x5C, b]
  else if b = 0x08 then str "\\b"
  else if b = 0x0C then str "\\f"
  else if b = 0x0A then str "\\n"
  else if b = 0x0D then str "\\r"
  else if b = 0x09 then str "\\t"
  else str "\\u00" ++ [hexDigit (b / 16), hexDigit (b % 16)]

/-- The loop of `appendString` over the bytes of the source: a byte below 0x80 by
`appendStringByte`; a byte that starts no well-formed rune as the escape of U+FFFD; the runes
U+2028 and U+2029 escaped; any other rune copied.  Each step consumes input, so the length of
the source is enough fuel. -/
def appendStringLoop : Nat → List Nat → List Nat
  | 0, _ => []
  | _ + 1, [] => []
  | fuel + 1, b :: rest =>
    if b < 0x80 then appendStringByte b ++ appendStringLoop fuel rest
    else if (decodeRune (b :: rest)).1 = runeError ∧ (decodeRune (b :: rest)).2 = 1 then
      str "\\ufffd" ++ appendStringLoop fuel rest
    else if (decodeRune (b :: rest)).1 = 0x2028 ∨ (decodeRune (b :: rest)).1 = 0x2029 then
      str "\\u202" ++ [hexDigit ((decodeRune (b :: rest)).1 % 16)] ++
        appendStringLoop fuel (rest.drop ((decodeRune (b :: rest)).2 - 1))
    else
      (b :: rest).take (decodeRune (b :: rest)).2 ++
        appendStringLoop fuel (rest.drop ((decodeRune (b :: rest)).2 - 1))

/-- What the loop of `appendString` writes for one well-formed rune. -/
def appendStringRune (r : Nat) : List Nat :=
  if r < 0x80 then appendStringByte r
  else if r = 0x2028 ∨ r = 0x2029 then str "\\u202" ++ [hexDigit (r % 16)]
  else encodeRune r

/-- The quoted JSON string `appendString` writes for a Go string. -/
def appendString (src : GoString) : List Nat :=
  [0x22] ++ appendStringLoop src.length src ++ [0x22]

/-- The order of `strings.Compare`, by which `Marshal` sorts map keys: bytewise. -/
def compareLE : List Nat → List Nat → Bool
  | [], _ => true
  | _ :: _, [] => false
  | a :: as, b :: bs => if a < b then true else if b < a then false else compareLE as bs

/-- The entries of a map in the order `Marshal` writes them. -/
def sortedEntries (m : GoMap) : GoMap :=
  m.insertionSort (fun a b => compareLE a.1 b.1 = true)

/-- The text of a boolean, as `strconv.AppendBool` writes it. -/
def appendBool (b : Bool) : List Nat := if b then str "true" else str "false"

/-- One member of the indented object: the key, a colon, a space and the boolean. -/
def marshalMember (e : GoString × Bool) : List Nat :=
  appendString e.1 ++ str ": " ++ appendBool e.2

/-- The members after the first one, each after a comma and a new line, and the closing
brace on a line of its own. -/
def marshalRest (es : GoMap) : List Nat :=
  es.flatMap (fun e => str ",\n  " ++ marshalMember e) ++ str "\n\x7d"

/-- The call `json.MarshalIndent(m, "", "  ")` of `saveState` on a non-nil `map[string]bool`:
the keys sorted, one member per line indented by two spaces, the empty map written as an empty
object.  It never fails on this type. -/
def jsonMarshalIndent (m : GoMap) : Except String GoString :=
  match sortedEntries m with
  | [] => .ok (str "\x7b\x7d")
  | e :: es => .ok (str "\x7b\n  " ++ marshalMember e ++ marshalRest es)

/-- The function `isSpace` of the JSON scanner: space, tab, carriage return, line feed. -/
def isSpace (c : Nat) : Bool := c == 0x20 || c == 0x09 || c == 0x0D || c == 0x0A

/-- Skip JSON white space. -/
def skipSpace : List Nat → List Nat
  | [] => []
  | c :: cs => if isSpace c then skipSpace cs else c :: cs

/-- The value of a hexadecimal digit, as `getu4` reads it. -/
def hexVal (c : Nat) : Option Nat :=
  if 0x30 ≤ c ∧ c ≤ 0x39 then some (c - 0x30)
  else if 0x61 ≤ c ∧ c ≤ 0x66 then some (c - 0x61 + 10)
  else if 0x41 ≤ c ∧ c ≤ 0x46 then some (c - 0x41 + 10)
  else none

/-- The function `getu4` of the decoder: the code unit of a leading `\uXXXX`. -/
def getu4 : List Nat → Option Nat
  | c0 :: c1 :: a :: b :: c :: d :: _ =>
    if c0 = 0x5C ∧ c1 = 0x75 then
      match hexVal a, hexVal b, hexVal c, hexVal d with
      | some x3, some x2, some x1, some x0 => some (x3 * 4096 + x2 * 256 + x1 * 16 + x0)
      | _, _, _, _ => none
    else none
  | _ => none

/-- The byte of a one-letter escape: the quote, the backslash and the slash stand for
themselves, then `b`, `f`, `n`, `r`, `t`. -/
def unescape (e : Nat) : Option Nat :=
  if e = 0x22 ∨ e = 0x5C ∨ e = 0x2F then some e
  else if e = 0x62 then some 0x08
  else if e = 0x66 then some 0x0C
  else if e = 0x6E then some 0x0A
  else if e = 0x72 then some 0x0D
  else if e = 0x74 then some 0x09
  else none

/-- Read a JSON string whose opening quote has been consumed, as the scanner and `unquote` of
`encoding/json` do: the decoded bytes (collected in `acc`) and the input after the closing
quote.  A control character, a bad escape or the end of the input is a syntax error; a lone
surrogate escape and a byte that starts no well-formed rune decode to U+FFFD.  Each step
consumes input, so the length of the input is enough fuel. -/
def readString : Nat → List Nat → GoString → Option (GoString × List Nat)
  | 0, _, _ => none
  | _ + 1, [], _ => none
  | fuel + 1, c :: rest, acc =>
    if c = 0x22 then some (acc, rest)
    else if c = 0x5C then
      match rest with
      | [] => none
      | e :: rest2 =>
        if e = 0x75 then
          match getu4 (c :: rest) with
          | none => none
          | some rr =>
            let rest3 := rest2.drop 4
            if 0xD800 ≤ rr ∧ rr < 0xE000 then
              match getu4 rest3 with
              | some rr1 =>
                if rr < 0xDC00 ∧ 0xDC00 ≤ rr1 ∧ rr1 < 0xE000 then
                  readString fuel (rest3.drop 6)
                    (acc ++ encodeRune ((rr - 0xD800) * 1024 + (rr1 - 0xDC00) + 0x10000))
                else readString fuel rest3 (acc ++ encodeRune runeError)
              | none => readString fuel rest3 (acc ++ encodeRune runeError)
            else readString fuel rest3 (acc ++ encodeRune rr)
        else
          match unescape e with
          | some ch => readString fuel rest2 (acc ++ [ch])
          | none => none
    else if c < 0x20 then none
    else if c < 0x80 then readString fuel rest (acc ++ [c])
    else
      readString fuel (rest.drop ((decodeRune (c :: rest)).2 - 1))
        (acc ++ encodeRune (decodeRune (c :: rest)).1)

/-- A decimal digit. -/
def isDigit (c : Nat) : Bool := decide (0x30 ≤ c) && decide (c ≤ 0x39)

/-- The exponent of a number, the input standing after the `e` or `E`: an optional sign and
one digit or more. -/
def scanExp (s : List Nat) : Option (List Nat) :=
  let s :=
    match s with
    | c :: r => if c = 0x2B ∨ c = 0x2D then r else s
    | [] => s
  match s with
  | c :: r => if isDigit c then some (r.dropWhile isDigit) else none
  | [] => none

/-- The rest of a number after its integer part: an optional fraction (a point and one digit
or more) and an optional exponent. -/
def scanFrac (s : List Nat) : Option (List Nat) :=
  match s with
  | [] => some s
  | c :: r =>
    if c = 0x2E then
      match r with
      | [] => none
      | d :: r2 =>
        if isDigit d then
          match r2.dropWhile isDigit with
          | [] => some []
          | e :: r4 => if e = 0x65 ∨ e = 0x45 then scanExp r4 else some (e :: r4)
        else none
    else if c = 0x65 ∨ c = 0x45 then scanExp r
    else some s

/-- A JSON number at the head of the input: an optional minus, then `0` or a digit from 1 to 9
followed by digits, then `scanFrac`.  The result is the input after the number. -/
def scanNumber (s : List Nat) : Option (List Nat) :=
  let s :=
    match s with
    | c :: r => if c = 0x2D then r else s
    | [] => s
  match s with
  | [] => none
  | c :: r =>
    if c = 0x30 then scanFrac r
    else if 0x31 ≤ c ∧ c ≤ 0x39 then scanFrac (r.dropWhile isDigit)
    else none

/-- One of the literals `true`, `false`, `null` at the head of the input. -/
def scanLiteral (s : List Nat) : Option (List Nat) :=
  if (str "true").isPrefixOf s then some (s.drop 4)
  else if (str "false").isPrefixOf s then some (s.drop 5)
  else if (str "null").isPrefixOf s then some (s.drop 4)
  else none

/-- An entry of the stack `parseState` of the scanner: inside an object or inside an array. -/
inductive ParseState where
  | object
  | array
  deriving DecidableEq

/-- The constant `maxNestingDepth` of the scanner. -/
def maxNestingDepth : Nat := 10000

/-- Read a key and the colon after it, the input standing at the opening quote. -/
def scanKey (s : List Nat) : Option (List Nat) :=
  match s with
  | [] => none
  | q :: rest =>
    if q = 0x22 then
      match readString rest.length rest [] with
      | none => none
      | some (_, r) =>
        match skipSpace r with
        | [] => none
        | c :: r2 => if c = 0x3A then some r2 else none
    else none

/-- The scanner of `encoding/json` as a machine with two states: `true` expects a value
(`stateBeginValue`), `false` stands after a value (`stateEndValue`) inside the objects and
arrays of `stack`.  The result is the input after the value that was begun with the stack the
machine started with.  Each step consumes input, so the length of the input plus one is enough
fuel. -/
def scanJSON : Nat → Bool → List ParseState → List Nat → Option (List Nat)
  | 0, _, _, _ => none
  | fuel + 1, true, stack, s =>
    match skipSpace s with
    | [] => none
    | c :: rest =>
      if c = 0x7B then
        if maxNestingDepth < stack.length + 1 then none
        else
          match skipSpace rest with
          | [] => none
          | d :: rest2 =>
            if d = 0x7D then scanJSON fuel false stack rest2
            else
              match scanKey (d :: rest2) with
              | none => none
              | some r => scanJSON fuel true (ParseState.object :: stack) r
      else if c = 0x5B then
        if maxNestingDepth < stack.length + 1 then none
        else
          match skipSpace rest with
          | [] => none
          | d :: rest2 =>
            if d = 0x5D then scanJSON fuel false stack rest2
            else scanJSON fuel true (ParseState.array :: stack) (d :: rest2)
      else if c = 0x22 then
        match readString rest.length rest [] with
        | none => none
        | some (_, r) => scanJSON fuel false stack r
      else if c = 0x2D ∨ isDigit c then
        match scanNumber (c :: rest) with
        | none => none
        | some r => scanJSON fuel false stack r
      else
        match scanLiteral (c :: rest) with
        | none => none
        | some r => scanJSON fuel false stack r
  | fuel + 1, false, stack, s =>
    match stack with
    | [] => some s
    | ParseState.array :: st =>
      match skipSpace s with
      | [] => none
      | c :: rest =>
        if c = 0x2C then scanJSON fuel true stack rest
        else if c = 0x5D then scanJSON fuel false st rest
        else none
    | ParseState.object :: st =>
      match skipSpace s with
      | [] => none
      | c :: rest =>
        if c = 0x2C then
          match scanKey (skipSpace rest) with
          | none => none
          | some r => scanJSON fuel true stack r
        else if c = 0x7D then scanJSON fuel false st rest
        else none

/-- The function `checkValid`: the data is one JSON value, white space around it allowed. -/
def checkValid (data : List Nat) : Bool :=
  match scanJSON (data.length + 1) true [] data with
  | none => false
  | some rest => skipSpace rest = []

/-- What the decoder stores for a member value of a `map[string]bool`, by the first byte of the
value: the boolean of `true` and `false`; the zero value `false` for `null`; the zero value and
an `UnmarshalTypeError` for a string, an object, an array or a number. -/
def storeValue (c : Nat) : Bool × Option String :=
  if c = 0x74 then (true, none)
  else if c = 0x66 ∨ c = 0x6E then (false, none)
  else if c = 0x22 then (false, some "json: cannot unmarshal string into Go value of type bool")
  else if c = 0x7B then (false, some "json: cannot unmarshal object into Go value of type bool")
  else if c = 0x5B then (false, some "json: cannot unmarshal array into Go value of type bool")
  else (false, some "json: cannot unmarshal number into Go value of type bool")

/-- The loop of the decoder over the members of the top-level object, the input standing at the
opening quote of a key: each member is stored with `m[key] = value` and the first type error
is kept.  The data has passed `checkValid`, so `none` is not reached.  Each member consumes
input, so the length of the input is enough fuel. -/
def decodeMembers : Nat → List Nat → GoMap → Option String → Option (GoMap × Option String)
  | 0, _, _, _ => none
  | fuel + 1, s, m, err =>
    match s with
    | [] => none
    | q :: rest =>
      if q = 0x22 then
        match readString rest.length rest [] with
        | none => none
        | some (key, r1) =>
          match skipSpace r1 with
          | [] => none
          | c :: r2 =>
            if c = 0x3A then
              match skipSpace r2 with
              | [] => none
              | v :: r3 =>
                match scanJSON (r3.length + 2) true [] (v :: r3) with
                | none => none
                | some r4 =>
                  match skipSpace r4 with
                  | [] => none
                  | d :: r5 =>
                    if d = 0x2C then
                      decodeMembers fuel (skipSpace r5) (m.set key (storeValue v).1)
                        (if err.isSome then err else (storeValue v).2)
                    else if d = 0x7D then
                      some (m.set key (storeValue v).1,
                        if err.isSome then err else (storeValue v).2)
                    else none
            else none
      else none

/-- The call `json.Unmarshal(data, &m)` of `loadState` for `m` a `map[string]bool`: the map
afterwards and the error returned.  Data that is not valid JSON leaves the map as it is.  An
object stores its members into the existing map; a member that is not a boolean is stored as
`false`, and one that is not `null` either makes the call return a type error after all
members are stored.  The literal `null` makes the map nil.  Any other value is a type error
and leaves the map as it is. -/
def jsonUnmarshal (data : GoString) (m : GoMap) : GoMap × Option String :=
  if checkValid data = false then (m, some "json: syntax error")
  else
    match skipSpace data with
    | [] => (m, some "json: syntax error")
    | c :: rest =>
      if c = 0x7B then
        match skipSpace rest with
        | [] => (m, some "json: syntax error")
        | d :: rest2 =>
          if d = 0x7D then (m, none)
          else
            match decodeMembers (rest2.length + 1) (d :: rest2) m none with
            | none => (m, some "json: syntax error")
            | some r => r
      else if c = 0x6E then ([], none)
      else if c = 0x5B then
        (m, some "json: cannot unmarshal array into Go value of type map[string]bool")
      else if c = 0x22 then
        (m, some "json: cannot unmarshal string into Go value of type map[string]bool")
      else if c = 0x74 ∨ c = 0x66 then
        (m, some "json: cannot unmarshal bool into Go value of type map[string]bool")
      else (m, some "json: cannot unmarshal number into Go value of type map[string]bool")

/-! ## The program -/

/-- The constant `stateFile` of `main.go`. -/
def stateFile : String := "permissions_state.json"

/-- The function `strings.Join`. -/
def stringsJoin : List GoString → GoString → GoString
  | [], _ => []
  | [a], _ => a
  | a :: b :: rest, sep => a ++ sep ++ stringsJoin (b :: rest) sep

/-- An observable effect of the program: a call of `log.Printf` with its format and its one
string argument, a call of `log.Printf` with its format and an error, a call of `log.Println`,
or a call of `os.WriteFile` with the file name and the data. -/
inductive Event where
  | printf (format : String) (arg : GoString)
  | printfErr (format : String) (err : String)
  | println (msg : String)
  | writeFile (name : String) (data : GoString)
  deriving DecidableEq

/-- The state of the process: the global `previousPermissions`, the contents of the state file
(`none` while the file does not exist) and the events so far, oldest first. -/
structure State where
  previousPermissions : GoMap
  file : Option GoString
  events : List Event
  deriving DecidableEq

namespace State

/-- Record `log.Printf(format, arg)` for a string `arg`. -/
def printf (st : State) (format : String) (arg : GoString) : State :=
  { st with events := st.events ++ [Event.printf format arg] }

/-- Record `log.Printf(format, err)` for an error `err`. -/
def printfErr (st : State) (format err : String) : State :=
  { st with events := st.events ++ [Event.printfErr format err] }

/-- Record `log.Println(msg)`. -/
def println (st : State) (msg : String) : State :=
  { st with events := st.events ++ [Event.println msg] }

end State

/-- The outcome of `os.WriteFile`: success, or an error together with whatever the failed write
left in the file. -/
inductive WriteOutcome where
  | ok
  | failed (err : String) (left : Option GoString)
  deriving DecidableEq

/-- The function `saveState` of `main.go`. -/
def saveState (w : WriteOutcome) (st : State) : State :=
  match jsonMarshalIndent st.previousPermissions with
  | .error err => st.printfErr "Erro ao serializar estado: %v" err
  | .ok file =>
    match w with
    | .ok =>
      { st with file := some file, events := st.events ++ [Event.writeFile stateFile file] }
    | .failed err left =>
      { st with
        file := left
        events := st.events ++ [Event.writeFile stateFile file,
          Event.printfErr "Erro ao salvar estado no arquivo: %v" err] }

/-- The function `loadState` of `main.go`; `readErr` is the error of `os.ReadFile`, if any.
The file does not exist (`os.IsNotExist`) exactly when `file` is `none`.  `json.Unmarshal`
works on `previousPermissions` in place, so the map it leaves is kept when it returns an
error. -/
def loadState (readErr : Option String) (st : State) : State :=
  match st.file with
  | none => st.println "Nenhum estado anterior encontrado. Iniciando do zero."
  | some file =>
    match readErr with
    | some err => st.printfErr "Erro ao ler arquivo de estado: %v" err
    | none =>
      match jsonUnmarshal file st.previousPermissions with
      | (m, some err) =>
        { st with previousPermissions := m }.printfErr "Erro ao deserializar estado: %v" err
      | (m, none) =>
        { st with previousPermissions := m }.println "Estado anterior carregado com sucesso."

/-- What a `rows.Next` loop receives from a query that `db.Query` started: the rows that
`rows.Next` delivers, each the scanned columns or the error of `rows.Scan`, and the error that
made `rows.Next` return `false` when it was not the end of the result (the value of
`rows.Err()`, which the program never reads). -/
structure Rows (α : Type) where
  scans : List (Except String α)
  err : Option String

/-- The answer to a query: the error of `db.Query`, or the rows. -/
abbrev QueryResult (α : Type) := Except String (Rows α)

/-- The answers of the database in one cycle to `tableQuery`, `schemaQuery` and
`databaseQuery`. -/
structure DB where
  tableQuery : QueryResult (GoString × GoString × GoString × GoString)
  schemaQuery : QueryResult (GoString × GoString × GoString)
  databaseQuery : QueryResult (GoString × GoString)

/-- The first `rows.Next` loop of `checkPermissions`. -/
def scanTableRows : List (Except String (GoString × GoString × GoString × GoString)) → GoMap →
    Except String GoMap
  | [], currentPermissions => .ok currentPermissions
  | .error err :: _, _ => .error err
  | .ok (grantee, privilege, schema, table) :: rows, currentPermissions =>
    scanTableRows rows (currentPermissions.set (tableKey grantee privilege schema table) true)

/-- The second `rows.Next` loop of `checkPermissions`. -/
def scanSchemaRows : List (Except String (GoString × GoString × GoString)) → GoMap →
    Except String GoMap
  | [], currentPermissions => .ok currentPermissions
  | .error err :: _, _ => .error err
  | .ok (grantee, privilege, schema) :: rows, currentPermissions =>
    scanSchemaRows rows (currentPermissions.set (schemaKey grantee privilege schema) true)

/-- The third `rows.Next` loop of `checkPermissions`. -/
def scanDatabaseRows : List (Except String (GoString × GoString)) → GoMap → Except String GoMap
  | [], currentPermissions => .ok currentPermissions
  | .error err :: _, _ => .error err
  | .ok (rolname, datname) :: rows, currentPermissions =>
    scanDatabaseRows rows (currentPermissions.set (databaseKey rolname datname) true)

/-- The format of the line that reports changes. -/
def changesFormat : String := "Mudanças detectadas: %s"

/-- The function `checkPermissions` of `main.go`, one cycle: `db` holds the answers to the three
queries and `w` the outcome of the write of `saveState`.  Each `return` after a failure ends the
cycle with the state it has then.  The loops end when `rows.Next` returns `false`, whatever
`rows.Err()` holds. -/
def checkPermissions (db : DB) (w : WriteOutcome) (st : State) : State :=
  let currentPermissions : GoMap := []
  match db.tableQuery with
  | .error err => st.printfErr "Erro ao obter permissões de tabelas: %v" err
  | .ok rows =>
  match scanTableRows rows.scans currentPermissions with
  | .error err => st.printfErr "Erro ao escanear resultado (tabelas): %v" err
  | .ok currentPermissions =>
  match db.schemaQuery with
  | .error err => st.printfErr "Erro ao obter permissões de esquemas: %v" err
  | .ok rows =>
  match scanSchemaRows rows.scans currentPermissions with
  | .error err => st.printfErr "Erro ao escanear resultado (esquemas): %v" err
  | .ok currentPermissions =>
  match db.databaseQuery with
  | .error err => st.printfErr "Erro ao obter permissões de bancos de dados: %v" err
  | .ok rows =>
  match scanDatabaseRows rows.scans currentPermissions with
  | .error err => st.printfErr "Erro ao escanear resultado (bancos de dados): %v" err
  | .ok currentPermissions =>
    let st :=
      if st.previousPermissions.length > 0 then
        let changes := detectChanges st.previousPermissions currentPermissions
        if changes.length > 0 then st.printf changesFormat (stringsJoin changes (str ", "))
        else st
      else st.println "Iniciando monitoramento..."
    let previousPermissions : GoMap :=
      currentPermissions.foldl (fun previousPermissions e => previousPermissions.set e.1 e.2) []
    saveState w { st with previousPermissions := previousPermissions }

/-- The failure of a query that the program checks for: `db.Query` returns an error, or
`rows.Scan` returns one for a row. -/
def QueryResult.FailsChecked {α : Type} (q : QueryResult α) : Prop :=
  match q with
  | .error _ => True
  | .ok rows => ∃ err, Except.error err ∈ rows.scans

/-- The query fails: `db.Query` returns an error, a row fails to scan, or the result breaks
off with an error while `rows.Next` reads it. -/
def QueryResult.Fails {α : Type} (q : QueryResult α) : Prop :=
  match q with
  | .error _ => True
  | .ok rows => (∃ err, Except.error err ∈ rows.scans) ∨ rows.err.isSome = true

/-- Some step of the collection of a cycle fails in a way the program checks for. -/
def DB.FailsChecked (db : DB) : Prop :=
  db.tableQuery.FailsChecked ∨ db.schemaQuery.FailsChecked ∨ db.databaseQuery.FailsChecked

/-- Some step of the collection of a cycle fails. -/
def DB.Fails (db : DB) : Prop :=
  db.tableQuery.Fails ∨ db.schemaQuery.Fails ∨ db.databaseQuery.Fails

/-- The answers of a cycle in which every query succeeds, every row scans and every result is
read to its end. -/
def DB.ofRows (ts : List (GoString × GoString × GoString × GoString))
    (ss : List (GoString × GoString × GoString)) (ds : List (GoString × GoString)) : DB :=
  { tableQuery := .ok ⟨ts.map .ok, none⟩, schemaQuery := .ok ⟨ss.map .ok, none⟩,
    databaseQuery := .ok ⟨ds.map .ok, none⟩ }

/-- The keys of the rows of a cycle, in the order the three loops meet them. -/
def rowKeys (ts : List (GoString × GoString × GoString × GoString))
    (ss : List (GoString × GoString × GoString)) (ds : List (GoString × GoString)) :
    List GoString :=
  ts.map (fun r => tableKey r.1 r.2.1 r.2.2.1 r.2.2.2) ++
    ss.map (fun r => schemaKey r.1 r.2.1 r.2.2) ++ ds.map (fun r => databaseKey r.1 r.2)

/-- The snapshot a cycle collects from rows that all scan: every key stored with `true`. -/
def collected (ts : List (GoString × GoString × GoString × GoString))
    (ss : List (GoString × GoString × GoString)) (ds : List (GoString × GoString)) : GoMap :=
  (rowKeys ts ss ds).foldl (fun currentPermissions k => currentPermissions.set k true) []

/-! # Theorems -/

set_option maxRecDepth 100000

/-! ## The literals of the program -/

theorem str_added : str "ADICIONADO: " = [65, 68, 73, 67, 73, 79, 78, 65, 68, 79, 58, 32] := by
  decide

theorem str_removed : str "REMOVIDO: " = [82, 69, 77, 79, 86, 73, 68, 79, 58, 32] := by
  decide

theorem str_colon : str ":" = [58] := by
  decide

theorem str_table : str "TABLE:" = [84, 65, 66, 76, 69, 58] := by
  decide

theorem str_schema : str "SCHEMA:" = [83, 67, 72, 69, 77, 65, 58] := by
  decide

theorem str_database : str "DATABASE:" = [68, 65, 84, 65, 66, 65, 83, 69, 58] := by
  decide

theorem str_connect : str ":CONNECT:" = [58, 67, 79, 78, 78, 69, 67, 84, 58] := by
  decide

theorem added_ne_removed (k k2 : GoString) : str "ADICIONADO: " ++ k ≠ str "REMOVIDO: " ++ k2 := by
  rw [str_added, str_removed]
  intro h
  have h3 := congrArg List.head? h
  simp at h3

theorem not_addition_and_removal (s : GoString) : ¬ (isAddition s ∧ isRemoval s) := by
  rintro ⟨⟨k, hk⟩, ⟨k2, hk2⟩⟩
  exact added_ne_removed k k2 (hk.symm.trans hk2)

/-! ## Maps -/

namespace GoMap

theorem index_true_mem_keys {m : GoMap} {k : GoString} (h : m.index k = true) : k ∈ m.keys := by
  unfold index at h
  split at h
  · next e he =>
    have h1 := List.find?_some he
    have h2 := List.mem_of_find?_eq_some he
    simp only [decide_eq_true_eq] at h1
    exact List.mem_map.2 ⟨e, h2, h1⟩
  · cases h

theorem index_eq_true_iff {m : GoMap} (hm : m.AllTrue) (k : GoString) :
    m.index k = true ↔ k ∈ m.keys := by
  constructor
  · exact index_true_mem_keys
  · intro hk
    obtain ⟨e, he, rfl⟩ := List.mem_map.1 hk
    unfold index
    split
    · next e2 he2 => exact hm e2 (List.mem_of_find?_eq_some he2)
    · next hnone =>
      have := List.find?_eq_none.1 hnone e he
      simp at this

end GoMap

theorem foldl_append_filter {α β : Type} (p : α → Bool) (f : α → β) (l : List α) (acc : List β) :
    l.foldl (fun c e => if p e then c ++ [f e] else c) acc = acc ++ (l.filter p).map f := by
  induction l generalizing acc with
  | nil => simp
  | cons a l ih =>
    simp only [List.foldl_cons, ih]
    by_cases h : p a = true
    · simp [h, List.filter_cons]
    · simp [h, List.filter_cons]

theorem detectChanges_eq (old new : GoMap) :
    detectChanges old new = additions old new ++ removals old new := by
  show old.foldl (fun c e => if (!new.index e.1) = true then c ++ [str "REMOVIDO: " ++ e.1] else c)
      (new.foldl (fun c e => if (!old.index e.1) = true then c ++ [str "ADICIONADO: " ++ e.1]
        else c) [])
    = additions old new ++ removals old new
  rw [foldl_append_filter (fun e : GoString × Bool => !old.index e.1)
      (fun e => str "ADICIONADO: " ++ e.1),
    foldl_append_filter (fun e : GoString × Bool => !new.index e.1)
      (fun e => str "REMOVIDO: " ++ e.1)]
  rfl

theorem mem_additions {old new : GoMap} {s : GoString} (h : s ∈ additions old new) :
    ∃ k, k ∈ new.keys ∧ old.index k = false ∧ s = str "ADICIONADO: " ++ k := by
  unfold additions at h
  obtain ⟨e, he, rfl⟩ := List.mem_map.1 h
  rw [List.mem_filter] at he
  refine ⟨e.1, List.mem_map.2 ⟨e, he.1, rfl⟩, ?_, rfl⟩
  simpa using he.2

theorem mem_removals {old new : GoMap} {s : GoString} (h : s ∈ removals old new) :
    ∃ k, k ∈ old.keys ∧ new.index k = false ∧ s = str "REMOVIDO: " ++ k := by
  unfold removals at h
  obtain ⟨e, he, rfl⟩ := List.mem_map.1 h
  rw [List.mem_filter] at he
  refine ⟨e.1, List.mem_map.2 ⟨e, he.1, rfl⟩, ?_, rfl⟩
  simpa using he.2

theorem additions_mem {old new : GoMap} {k : GoString} (hk : k ∈ new.keys)
    (ho : old.index k = false) : str "ADICIONADO: " ++ k ∈ additions old new := by
  obtain ⟨e, he, rfl⟩ := List.mem_map.1 hk
  exact List.mem_map.2 ⟨e, List.mem_filter.2 ⟨he, by simp [ho]⟩, rfl⟩

theorem removals_mem {old new : GoMap} {k : GoString} (hk : k ∈ old.keys)
    (hn : new.index k = false) : str "REMOVIDO: " ++ k ∈ removals old new := by
  obtain ⟨e, he, rfl⟩ := List.mem_map.1 hk
  exact List.mem_map.2 ⟨e, List.mem_filter.2 ⟨he, by simp [hn]⟩, rfl⟩

theorem added_mem_detectChanges (old new : GoMap) (k : GoString) :
    str "ADICIONADO: " ++ k ∈ detectChanges old new ↔ k ∈ new.keys ∧ old.index k = false := by
  rw [detectChanges_eq, List.mem_append]
  constructor
  · rintro (h | h)
    · obtain ⟨k2, hk2, ho, heq⟩ := mem_additions h
      cases List.append_cancel_left heq
      exact ⟨hk2, ho⟩
    · obtain ⟨k2, _, _, heq⟩ := mem_removals h
      exact absurd heq (added_ne_removed k k2)
  · rintro ⟨h1, h2⟩
    exact Or.inl (additions_mem h1 h2)

theorem removed_mem_detectChanges (old new : GoMap) (k : GoString) :
    str "REMOVIDO: " ++ k ∈ detectChanges old new ↔ k ∈ old.keys ∧ new.index k = false := by
  rw [detectChanges_eq, List.mem_append]
  constructor
  · rintro (h | h)
    · obtain ⟨k2, _, _, heq⟩ := mem_additions h
      exact absurd heq.symm (added_ne_removed k2 k)
    · obtain ⟨k2, hk2, ho, heq⟩ := mem_removals h
      cases List.append_cancel_left heq
      exact ⟨hk2, ho⟩
  · rintro ⟨h1, h2⟩
    exact Or.inr (removals_mem h1 h2)

/-! ## Keys -/

theorem split_at_colon {a b x y : List Nat} (ha : 58 ∉ a) (hb : 58 ∉ b)
    (h : a ++ 58 :: x = b ++ 58 :: y) : a = b ∧ x = y := by
  induction a generalizing b with
  | nil =>
    cases b with
    | nil => simpa using h
    | cons c b =>
      simp only [List.nil_append, List.cons_append, List.cons.injEq] at h
      exact absurd (h.1 ▸ List.mem_cons_self _ _) hb
  | cons c a ih =>
    cases b with
    | nil =>
      simp only [List.nil_append, List.cons_append, List.cons.injEq] at h
      exact absurd (h.1 ▸ List.mem_cons_self _ _) ha
    | cons d b =>
      simp only [List.cons_append, List.cons.injEq] at h
      have ha2 : 58 ∉ a := fun hm => ha (List.mem_cons_of_mem _ hm)
      have hb2 : 58 ∉ b := fun hm => hb (List.mem_cons_of_mem _ hm)
      obtain ⟨r1, r2⟩ := ih ha2 hb2 h.2
      exact ⟨by rw [h.1, r1], r2⟩

theorem tableKey_eq (g p s t : GoString) :
    tableKey g p s t = str "TABLE:" ++ (g ++ 58 :: (p ++ 58 :: (s ++ 58 :: t))) := by
  simp [tableKey, str_colon]

theorem schemaKey_eq (g p s : GoString) :
    schemaKey g p s = str "SCHEMA:" ++ (g ++ 58 :: (p ++ 58 :: s)) := by
  simp [schemaKey, str_colon]

theorem databaseKey_eq (r d : GoString) :
    databaseKey r d = str "DATABASE:" ++ (r ++ 58 :: ([67, 79, 78, 78, 69, 67, 84, 58] ++ d)) := by
  simp [databaseKey, str_connect]

theorem key_eq_of_leading {f g : PrivilegeFact} (hf : f.leadingFieldsNoColon)
    (hg : g.leadingFieldsNoColon) (h : f.key = g.key) : f = g := by
  cases f <;> cases g <;>
    simp only [PrivilegeFact.key, tableKey_eq, schemaKey_eq, databaseKey_eq] at h
  case table.table g1 p1 s1 t1 g2 p2 s2 t2 =>
    obtain ⟨a1, a2, a3⟩ := hf
    obtain ⟨b1, b2, b3⟩ := hg
    obtain ⟨e1, r1⟩ := split_at_colon a1 b1 (List.append_cancel_left h)
    obtain ⟨e2, r2⟩ := split_at_colon a2 b2 r1
    obtain ⟨e3, r3⟩ := split_at_colon a3 b3 r2
    rw [e1, e2, e3, r3]
  case schema.schema g1 p1 s1 g2 p2 s2 =>
    obtain ⟨a1, a2⟩ := hf
    obtain ⟨b1, b2⟩ := hg
    obtain ⟨e1, r1⟩ := split_at_colon a1 b1 (List.append_cancel_left h)
    obtain ⟨e2, r2⟩ := split_at_colon a2 b2 r1
    rw [e1, e2, r2]
  case database.database r1 d1 r2 d2 =>
    obtain ⟨e1, q1⟩ := split_at_colon hf hg (List.append_cancel_left h)
    rw [e1, List.append_cancel_left q1]
  all_goals
    simp only [str_table, str_schema, str_database] at h
    have h0 := congrArg List.head? h
    simp at h0

theorem key_ne_of_kind_ne {f g : PrivilegeFact} (hk : f.kind ≠ g.kind) : f.key ≠ g.key := by
  intro h
  cases f <;> cases g <;>
    simp only [PrivilegeFact.key, tableKey_eq, schemaKey_eq, databaseKey_eq] at h
  case table.table => exact hk rfl
  case schema.schema => exact hk rfl
  case database.database => exact hk rfl
  all_goals
    simp only [str_table, str_schema, str_database] at h
    have h0 := congrArg List.head? h
    simp at h0

/-! ## The claims about `detectChanges` -/

/-- C1: for snapshots whose stored values are all true, `detectChanges old new` holds the
addition entry of a key exactly when the key is in `new` and not in `old`, and the removal entry
of a key exactly when the key is in `old` and not in `new`; the maps are arbitrary lists of
entries, so this holds for every iteration order. -/
theorem detectChanges_set_difference (old new : GoMap) (hold : old.AllTrue) (hnew : new.AllTrue)
    (k : GoString) :
    ((str "ADICIONADO: " ++ k) ∈ detectChanges old new ↔ (k ∈ new.keys ∧ k ∉ old.keys)) ∧
    ((str "REMOVIDO: " ++ k) ∈ detectChanges old new ↔ (k ∈ old.keys ∧ k ∉ new.keys)) := by
  rw [added_mem_detectChanges, removed_mem_detectChanges,
    ← GoMap.index_eq_true_iff hold k, ← GoMap.index_eq_true_iff hnew k]
  simp

/-- Witness of C1 at the first scenario of the specification. -/
theorem detectChanges_set_difference_witness :
    GoMap.AllTrue [(str "TABLE:monitorado:SELECT:public:users", true)] ∧
    GoMap.AllTrue [(str "TABLE:monitorado:SELECT:public:users", true),
      (str "SCHEMA:monitorado:USAGE:public", true)] ∧
    (((str "ADICIONADO: " ++ str "SCHEMA:monitorado:USAGE:public") ∈
        detectChanges [(str "TABLE:monitorado:SELECT:public:users", true)]
          [(str "TABLE:monitorado:SELECT:public:users", true),
            (str "SCHEMA:monitorado:USAGE:public", true)] ↔
      (str "SCHEMA:monitorado:USAGE:public" ∈
          GoMap.keys [(str "TABLE:monitorado:SELECT:public:users", true),
            (str "SCHEMA:monitorado:USAGE:public", true)] ∧
        str "SCHEMA:monitorado:USAGE:public" ∉
          GoMap.keys [(str "TABLE:monitorado:SELECT:public:users", true)])) ∧
    ((str "REMOVIDO: " ++ str "SCHEMA:monitorado:USAGE:public") ∈
        detectChanges [(str "TABLE:monitorado:SELECT:public:users", true)]
          [(str "TABLE:monitorado:SELECT:public:users", true),
            (str "SCHEMA:monitorado:USAGE:public", true)] ↔
      (str "SCHEMA:monitorado:USAGE:public" ∈
          GoMap.keys [(str "TABLE:monitorado:SELECT:public:users", true)] ∧
        str "SCHEMA:monitorado:USAGE:public" ∉
          GoMap.keys [(str "TABLE:monitorado:SELECT:public:users", true),
            (str "SCHEMA:monitorado:USAGE:public", true)]))) :=
  ⟨by decide, by decide,
    detectChanges_set_difference _ _ (by decide) (by decide)
      (str "SCHEMA:monitorado:USAGE:public")⟩

/-- C2, counterexample: at the two scenarios of the specification the code returns the entries
tagged `ADICIONADO: ` and `REMOVIDO: `, not the texts `ADDED:` and `REMOVED:` followed by the
key. -/
theorem detectChanges_tag_counterexample :
    detectChanges [(str "TABLE:monitorado:SELECT:public:users", true)]
        [(str "TABLE:monitorado:SELECT:public:users", true),
          (str "SCHEMA:monitorado:USAGE:public", true)]
      ≠ [str "ADDED:SCHEMA:monitorado:USAGE:public"] ∧
    detectChanges [(str "DATABASE:monitorado:CONNECT:testdb", true)] []
      ≠ [str "REMOVED:DATABASE:monitorado:CONNECT:testdb"] := by
  decide

/-- C2, amended: every entry of `detectChanges old new` is `ADICIONADO: ` followed by a key of
`new` or `REMOVIDO: ` followed by a key of `old`; the two scenarios of the specification return
one entry each, with these tags. -/
theorem detectChanges_entries (old new : GoMap) :
    (∃ adds rems : List GoString, adds ⊆ new.keys ∧ rems ⊆ old.keys ∧
      detectChanges old new =
        adds.map (fun k => str "ADICIONADO: " ++ k) ++
          rems.map (fun k => str "REMOVIDO: " ++ k)) ∧
    detectChanges [(str "TABLE:monitorado:SELECT:public:users", true)]
        [(str "TABLE:monitorado:SELECT:public:users", true),
          (str "SCHEMA:monitorado:USAGE:public", true)]
      = [str "ADICIONADO: SCHEMA:monitorado:USAGE:public"] ∧
    detectChanges [(str "DATABASE:monitorado:CONNECT:testdb", true)] []
      = [str "REMOVIDO: DATABASE:monitorado:CONNECT:testdb"] := by
  refine ⟨⟨((new.filter (fun e => !old.index e.1)).map Prod.fst),
    ((old.filter (fun e => !new.index e.1)).map Prod.fst), ?_, ?_, ?_⟩, by decide, by decide⟩
  · intro k hk
    obtain ⟨e, he, rfl⟩ := List.mem_map.1 hk
    exact List.mem_map.2 ⟨e, (List.mem_filter.1 he).1, rfl⟩
  · intro k hk
    obtain ⟨e, he, rfl⟩ := List.mem_map.1 hk
    exact List.mem_map.2 ⟨e, (List.mem_filter.1 he).1, rfl⟩
  · rw [detectChanges_eq]
    simp [additions, removals, List.map_map, Function.comp_def]

/-- C8, counterexample: a snapshot that stores `false` for a key, as `loadState` builds it from
a state file whose one member has the value `false`, differs from itself: its key is reported
both as added and as removed. -/
theorem detectChanges_self_counterexample :
    (loadState none ⟨[], some (str "\x7b\"TABLE:monitorado:SELECT:public:users\": false\x7d"),
        []⟩).previousPermissions
      = [(str "TABLE:monitorado:SELECT:public:users", false)] ∧
    detectChanges [(str "TABLE:monitorado:SELECT:public:users", false)]
        [(str "TABLE:monitorado:SELECT:public:users", false)]
      = [str "ADICIONADO: TABLE:monitorado:SELECT:public:users",
          str "REMOVIDO: TABLE:monitorado:SELECT:public:users"] ∧
    detectChanges [(str "TABLE:monitorado:SELECT:public:users", false)]
        [(str "TABLE:monitorado:SELECT:public:users", false)] ≠ [] := by
  decide

/-- C8, amended: for every snapshot whose stored values are all true, `detectChanges A A`
returns no entry. -/
theorem detectChanges_self (A : GoMap) (hA : A.AllTrue) : detectChanges A A = [] := by
  have hf : A.filter (fun e => !A.index e.1) = [] := by
    rw [List.filter_eq_nil_iff]
    intro e he
    have := (GoMap.index_eq_true_iff hA e.1).2 (List.mem_map.2 ⟨e, he, rfl⟩)
    simp [this]
  rw [detectChanges_eq]
  simp [additions, removals, hf]

/-- Witness of the amended C8 at a snapshot of two keys. -/
theorem detectChanges_self_witness :
    GoMap.AllTrue [(str "TABLE:monitorado:SELECT:public:users", true),
      (str "SCHEMA:monitorado:USAGE:public", true)] ∧
    detectChanges [(str "TABLE:monitorado:SELECT:public:users", true),
      (str "SCHEMA:monitorado:USAGE:public", true)]
      [(str "TABLE:monitorado:SELECT:public:users", true),
      (str "SCHEMA:monitorado:USAGE:public", true)] = [] :=
  ⟨by decide, detectChanges_self _ (by decide)⟩

/-- C9: the list `detectChanges old new` is a group of addition entries followed by a group of
removal entries, and no removal entry stands before an addition entry. -/
theorem detectChanges_additions_first (old new : GoMap) :
    (∃ adds rems : List GoString, detectChanges old new = adds ++ rems ∧
      (∀ a ∈ adds, isAddition a ∧ ¬ isRemoval a) ∧ (∀ r ∈ rems, isRemoval r ∧ ¬ isAddition r)) ∧
    List.Pairwise (fun a b => ¬ (isRemoval a ∧ isAddition b)) (detectChanges old new) := by
  have hadd : ∀ a ∈ additions old new, isAddition a ∧ ¬ isRemoval a := by
    intro a ha
    obtain ⟨k, _, _, rfl⟩ := mem_additions ha
    exact ⟨⟨k, rfl⟩, fun hr => not_addition_and_removal _ ⟨⟨k, rfl⟩, hr⟩⟩
  have hrem : ∀ r ∈ removals old new, isRemoval r ∧ ¬ isAddition r := by
    intro r hr
    obtain ⟨k, _, _, rfl⟩ := mem_removals hr
    exact ⟨⟨k, rfl⟩, fun ha => not_addition_and_removal _ ⟨ha, ⟨k, rfl⟩⟩⟩
  refine ⟨⟨additions old new, removals old new, detectChanges_eq old new, hadd, hrem⟩, ?_⟩
  rw [detectChanges_eq, List.pairwise_append]
  refine ⟨?_, ?_, ?_⟩
  · exact List.pairwise_of_forall_mem_list (fun a ha b _ h => (hadd a ha).2 h.1)
  · exact List.pairwise_of_forall_mem_list (fun a _ b hb h => (hrem b hb).2 h.2)
  · intro a ha b _ h
    exact (hadd a ha).2 h.1

/-! ## The claims about the keys -/

/-- C3, counterexample: two TABLE facts that differ in the schema and in the table, one of
whose schema names holds a `:`, get the same key. -/
theorem key_collision_counterexample :
    PrivilegeFact.table (str "monitorado") (str "SELECT") (str "app:v1") (str "users") ≠
      PrivilegeFact.table (str "monitorado") (str "SELECT") (str "app") (str "v1:users") ∧
    (PrivilegeFact.table (str "monitorado") (str "SELECT") (str "app:v1") (str "users")).key =
      (PrivilegeFact.table (str "monitorado") (str "SELECT") (str "app") (str "v1:users")).key := by
  decide

/-- C3, amended: two facts that differ get different keys when they differ in kind, or when in
both of them no field other than the last of the format (the table of a TABLE, the schema of a
SCHEMA, the database of a DATABASE) holds a `:`. -/
theorem key_ne_of_ne (f g : PrivilegeFact) (hne : f ≠ g)
    (h : f.kind ≠ g.kind ∨ (f.leadingFieldsNoColon ∧ g.leadingFieldsNoColon)) :
    f.key ≠ g.key := by
  rcases h with hk | ⟨hf, hg⟩
  · exact key_ne_of_kind_ne hk
  · exact fun heq => hne (key_eq_of_leading hf hg heq)

/-- Witness of the amended C3 at the example of the specification. -/
theorem key_ne_of_ne_witness :
    PrivilegeFact.table (str "monitorado") (str "SELECT") (str "public") (str "users") ≠
      PrivilegeFact.table (str "monitorado") (str "SELECT") (str "public") (str "orders") ∧
    (PrivilegeFact.table (str "monitorado") (str "SELECT") (str "public") (str "users")).key ≠
      (PrivilegeFact.table (str "monitorado") (str "SELECT") (str "public") (str "orders")).key :=
  ⟨by decide, key_ne_of_ne _ _ (by decide) (Or.inr ⟨by decide, by decide⟩)⟩

/-- C10: two facts none of whose fields holds a `:` and whose keys are equal have the same kind
and the same value in every field. -/
theorem key_injective (f g : PrivilegeFact) (hf : f.fieldsNoColon) (hg : g.fieldsNoColon)
    (h : f.key = g.key) : f = g := by
  apply key_eq_of_leading _ _ h
  · cases f
    · exact ⟨hf.1, hf.2.1, hf.2.2.1⟩
    · exact ⟨hf.1, hf.2.1⟩
    · exact hf.1
  · cases g
    · exact ⟨hg.1, hg.2.1, hg.2.2.1⟩
    · exact ⟨hg.1, hg.2.1⟩
    · exact hg.1

/-- Witness of C10 at a SCHEMA fact. -/
theorem key_injective_witness :
    (PrivilegeFact.schema (str "monitorado") (str "USAGE") (str "public")).fieldsNoColon ∧
    (PrivilegeFact.schema (str "monitorado") (str "USAGE") (str "public")).key =
      (PrivilegeFact.schema (str "monitorado") (str "USAGE") (str "public")).key ∧
    PrivilegeFact.schema (str "monitorado") (str "USAGE") (str "public") =
      PrivilegeFact.schema (str "monitorado") (str "USAGE") (str "public") :=
  ⟨by decide, rfl, key_injective _ _ (by decide) (by decide) rfl⟩

/-! ## Map updates -/

namespace GoMap

theorem keys_set (m : GoMap) (k : GoString) (v : Bool) :
    (m.set k v).keys = if k ∈ m.keys then m.keys else m.keys ++ [k] := by
  induction m with
  | nil => simp [set, keys]
  | cons e m ih =>
    unfold keys at ih
    by_cases h : e.1 = k
    · simp [set, keys, h]
    · have h2 : ¬ k = e.1 := fun hh => h hh.symm
      by_cases hm : k ∈ List.map Prod.fst m
      · simp [set, keys, h, h2, hm, ih]
      · simp [set, keys, h, h2, hm, ih]

theorem mem_keys_set (m : GoMap) (k : GoString) (v : Bool) (k2 : GoString) :
    k2 ∈ (m.set k v).keys ↔ k2 ∈ m.keys ∨ k2 = k := by
  rw [keys_set]
  by_cases h : k ∈ m.keys
  · simp only [h, if_true]
    constructor
    · exact Or.inl
    · rintro (h2 | rfl)
      · exact h2
      · exact h
  · simp [h]

theorem WF_set {m : GoMap} (h : m.WF) (k : GoString) (v : Bool) : (m.set k v).WF := by
  unfold WF at *
  rw [keys_set]
  by_cases hk : k ∈ m.keys
  · simpa [hk] using h
  · simp only [hk, if_false]
    rw [List.nodup_append]
    exact ⟨h, List.nodup_singleton k, by simpa using hk⟩

theorem AllTrue_set {m : GoMap} (h : m.AllTrue) (k : GoString) : (m.set k true).AllTrue := by
  induction m with
  | nil =>
    intro e he
    simp only [set, List.mem_singleton] at he
    rw [he]
  | cons a m ih =>
    have hm : AllTrue m := fun e he => h e (List.mem_cons_of_mem _ he)
    intro e he
    unfold set at he
    split at he
    · rcases List.mem_cons.1 he with rfl | he2
      · rfl
      · exact hm e he2
    · rcases List.mem_cons.1 he with rfl | he2
      · exact h _ (List.mem_cons_self _ _)
      · exact ih hm e he2

theorem set_of_not_mem {m : GoMap} {k : GoString} (v : Bool) (h : k ∉ m.keys) :
    m.set k v = m ++ [(k, v)] := by
  induction m with
  | nil => rfl
  | cons e m ih =>
    have h1 : ¬ e.1 = k := fun hh => h (by simp [keys, hh])
    have h2 : k ∉ keys m := fun hh => h (by
      unfold keys at *
      exact List.mem_cons_of_mem _ hh)
    simp [set, h1, ih h2]

theorem foldl_set_copy (m acc : GoMap) (h : (acc ++ m).WF) :
    m.foldl (fun (previousPermissions : GoMap) e => previousPermissions.set e.1 e.2) acc = acc ++ m := by
  induction m generalizing acc with
  | nil => simp
  | cons e m ih =>
    have hk : e.1 ∉ acc.keys := by
      unfold WF keys at h
      rw [List.map_append, List.nodup_append] at h
      intro hmem
      exact h.2.2 hmem (by simp)
    have h2 : (acc ++ [e] ++ m).WF := by simpa using h
    rw [List.foldl_cons, set_of_not_mem _ hk, ih _ h2]
    simp

theorem foldl_set_true_keys (ks : List GoString) (cur : GoMap) (k : GoString) :
    k ∈ (ks.foldl (fun (currentPermissions : GoMap) k => currentPermissions.set k true) cur).keys ↔
      k ∈ cur.keys ∨ k ∈ ks := by
  induction ks generalizing cur with
  | nil => simp
  | cons a ks ih =>
    rw [List.foldl_cons, ih, mem_keys_set, List.mem_cons]
    tauto

theorem foldl_set_true_WF (ks : List GoString) (cur : GoMap) (h : cur.WF) :
    (ks.foldl (fun (currentPermissions : GoMap) k => currentPermissions.set k true) cur).WF := by
  induction ks generalizing cur with
  | nil => exact h
  | cons a ks ih => exact ih _ (WF_set h a true)

theorem foldl_set_true_AllTrue (ks : List GoString) (cur : GoMap) (h : cur.AllTrue) :
    (ks.foldl (fun (currentPermissions : GoMap) k => currentPermissions.set k true) cur).AllTrue := by
  induction ks generalizing cur with
  | nil => exact h
  | cons a ks ih => exact ih _ (AllTrue_set h a)

end GoMap

/-! ## The collection loops -/

theorem scanTableRows_ok (ts : List (GoString × GoString × GoString × GoString)) (cur : GoMap) :
    scanTableRows (ts.map .ok) cur = .ok
      ((ts.map (fun r => tableKey r.1 r.2.1 r.2.2.1 r.2.2.2)).foldl
        (fun (currentPermissions : GoMap) k => currentPermissions.set k true) cur) := by
  induction ts generalizing cur with
  | nil => rfl
  | cons r ts ih =>
    obtain ⟨g, p, s, t⟩ := r
    simp only [List.map_cons, scanTableRows, ih, List.foldl_cons]

theorem scanSchemaRows_ok (ss : List (GoString × GoString × GoString)) (cur : GoMap) :
    scanSchemaRows (ss.map .ok) cur = .ok
      ((ss.map (fun r => schemaKey r.1 r.2.1 r.2.2)).foldl
        (fun (currentPermissions : GoMap) k => currentPermissions.set k true) cur) := by
  induction ss generalizing cur with
  | nil => rfl
  | cons r ss ih =>
    obtain ⟨g, p, s⟩ := r
    simp only [List.map_cons, scanSchemaRows, ih, List.foldl_cons]

theorem scanDatabaseRows_ok (ds : List (GoString × GoString)) (cur : GoMap) :
    scanDatabaseRows (ds.map .ok) cur = .ok
      ((ds.map (fun r => databaseKey r.1 r.2)).foldl
        (fun (currentPermissions : GoMap) k => currentPermissions.set k true) cur) := by
  induction ds generalizing cur with
  | nil => rfl
  | cons r ds ih =>
    obtain ⟨r1, d⟩ := r
    simp only [List.map_cons, scanDatabaseRows, ih, List.foldl_cons]

theorem scanTableRows_no_error {rows : List (Except String (GoString × GoString × GoString × GoString))}
    {cur c : GoMap} (h : scanTableRows rows cur = .ok c) (err : String) :
    Except.error err ∉ rows := by
  induction rows generalizing cur with
  | nil => simp
  | cons r rows ih =>
    cases r with
    | error e => simp [scanTableRows] at h
    | ok r =>
      obtain ⟨g, p, s, t⟩ := r
      simp only [scanTableRows] at h
      simpa using ih h

theorem scanSchemaRows_no_error {rows : List (Except String (GoString × GoString × GoString))}
    {cur c : GoMap} (h : scanSchemaRows rows cur = .ok c) (err : String) :
    Except.error err ∉ rows := by
  induction rows generalizing cur with
  | nil => simp
  | cons r rows ih =>
    cases r with
    | error e => simp [scanSchemaRows] at h
    | ok r =>
      obtain ⟨g, p, s⟩ := r
      simp only [scanSchemaRows] at h
      simpa using ih h

theorem scanDatabaseRows_no_error {rows : List (Except String (GoString × GoString))}
    {cur c : GoMap} (h : scanDatabaseRows rows cur = .ok c) (err : String) :
    Except.error err ∉ rows := by
  induction rows generalizing cur with
  | nil => simp
  | cons r rows ih =>
    cases r with
    | error e => simp [scanDatabaseRows] at h
    | ok r =>
      obtain ⟨r1, d⟩ := r
      simp only [scanDatabaseRows] at h
      simpa using ih h

theorem collected_WF (ts : List (GoString × GoString × GoString × GoString))
    (ss : List (GoString × GoString × GoString)) (ds : List (GoString × GoString)) :
    (collected ts ss ds).WF :=
  GoMap.foldl_set_true_WF _ _ List.nodup_nil

theorem collected_AllTrue (ts : List (GoString × GoString × GoString × GoString))
    (ss : List (GoString × GoString × GoString)) (ds : List (GoString × GoString)) :
    (collected ts ss ds).AllTrue :=
  GoMap.foldl_set_true_AllTrue _ _ (fun _ he => absurd he (List.not_mem_nil _))

theorem mem_keys_collected (ts : List (GoString × GoString × GoString × GoString))
    (ss : List (GoString × GoString × GoString)) (ds : List (GoString × GoString)) (k : GoString) :
    k ∈ (collected ts ss ds).keys ↔ k ∈ rowKeys ts ss ds := by
  unfold collected
  rw [GoMap.foldl_set_true_keys]
  simp [GoMap.keys]

/-- A cycle whose queries succeed: report against the previous snapshot unless it is empty,
replace it by the collected snapshot, save. -/
theorem checkPermissions_ofRows (ts : List (GoString × GoString × GoString × GoString))
    (ss : List (GoString × GoString × GoString)) (ds : List (GoString × GoString)) (w : WriteOutcome)
    (st : State) :
    checkPermissions (DB.ofRows ts ss ds) w st =
      saveState w
        { previousPermissions := collected ts ss ds
          file := st.file
          events :=
            if st.previousPermissions.length > 0 then
              if (detectChanges st.previousPermissions (collected ts ss ds)).length > 0 then
                st.events ++ [Event.printf changesFormat
                  (stringsJoin (detectChanges st.previousPermissions (collected ts ss ds)) (str ", "))]
              else st.events
            else st.events ++ [Event.println "Iniciando monitoramento..."] } := by
  have hc : ((ds.map (fun r => databaseKey r.1 r.2)).foldl
        (fun (currentPermissions : GoMap) k => currentPermissions.set k true)
      ((ss.map (fun r => schemaKey r.1 r.2.1 r.2.2)).foldl
        (fun (currentPermissions : GoMap) k => currentPermissions.set k true)
      ((ts.map (fun r => tableKey r.1 r.2.1 r.2.2.1 r.2.2.2)).foldl
        (fun (currentPermissions : GoMap) k => currentPermissions.set k true) []))) = collected ts ss ds := by
    simp [collected, rowKeys, List.foldl_append]
  have hcopy := GoMap.foldl_set_copy (collected ts ss ds) [] (by simpa using collected_WF ts ss ds)
  simp only [List.nil_append] at hcopy
  simp only [checkPermissions, DB.ofRows, scanTableRows_ok, scanSchemaRows_ok, scanDatabaseRows_ok,
    hc, hcopy]
  by_cases h1 : st.previousPermissions.length > 0
  · by_cases h2 : (detectChanges st.previousPermissions (collected ts ss ds)).length > 0
    · simp [h1, h2, State.printf]
    · simp [h1, h2]
  · simp [h1, State.println]

theorem jsonMarshalIndent_ok (m : GoMap) : ∃ data, jsonMarshalIndent m = .ok data := by
  unfold jsonMarshalIndent
  split
  · exact ⟨_, rfl⟩
  · exact ⟨_, rfl⟩

theorem saveState_previousPermissions (w : WriteOutcome) (st : State) :
    (saveState w st).previousPermissions = st.previousPermissions := by
  unfold saveState
  split
  · rfl
  · split <;> rfl

theorem saveState_events (w : WriteOutcome) (st : State) :
    ∃ data, jsonMarshalIndent st.previousPermissions = .ok data ∧
      (w = WriteOutcome.ok → (saveState w st).file = some data) ∧
      ∃ errs, (saveState w st).events = st.events ++ Event.writeFile stateFile data :: errs ∧
        ∀ a, Event.printf changesFormat a ∉ errs := by
  obtain ⟨data, hdata⟩ := jsonMarshalIndent_ok st.previousPermissions
  refine ⟨data, hdata, ?_, ?_⟩
  · intro hw
    simp [saveState, hdata, hw]
  · cases w with
    | ok => exact ⟨[], by simp [saveState, hdata], by simp⟩
    | failed err left =>
      refine ⟨[Event.printfErr "Erro ao salvar estado no arquivo: %v" err], by simp [saveState, hdata], ?_⟩
      intro a
      simp

/-! ## The claims about a cycle -/

/-- C4: a cycle that starts with an empty `previousPermissions` and whose three queries succeed
logs the start of the monitoring and saves; none of its events is the line that reports changes,
whatever the collected snapshot holds, and afterwards `previousPermissions` is the collected
snapshot. -/
theorem checkPermissions_baseline (ts : List (GoString × GoString × GoString × GoString))
    (ss : List (GoString × GoString × GoString)) (ds : List (GoString × GoString))
    (w : WriteOutcome) (st : State) (hempty : st.previousPermissions.length = 0) :
    (checkPermissions (DB.ofRows ts ss ds) w st).previousPermissions = collected ts ss ds ∧
    checkPermissions (DB.ofRows ts ss ds) w st =
      saveState w
        { previousPermissions := collected ts ss ds
          file := st.file
          events := st.events ++ [Event.println "Iniciando monitoramento..."] } ∧
    ∃ evs, (checkPermissions (DB.ofRows ts ss ds) w st).events = st.events ++ evs ∧
      ∀ a, Event.printf changesFormat a ∉ evs := by
  have h := checkPermissions_ofRows ts ss ds w st
  have h0 : ¬ st.previousPermissions.length > 0 := by omega
  simp only [h0, if_false] at h
  refine ⟨?_, h, ?_⟩
  · rw [h, saveState_previousPermissions]
  · obtain ⟨data, _, _, errs, he, hne⟩ := saveState_events w
      { previousPermissions := collected ts ss ds
        file := st.file
        events := st.events ++ [Event.println "Iniciando monitoramento..."] }
    refine ⟨Event.println "Iniciando monitoramento..." :: Event.writeFile stateFile data :: errs,
      ?_, ?_⟩
    · rw [h, he]
      simp
    · intro a ha
      rcases List.mem_cons.1 ha with h1 | h1
      · cases h1
      · rcases List.mem_cons.1 h1 with h2 | h2
        · cases h2
        · exact hne a h2

/-- Witness of C4: the first cycle of a fresh process that finds two privileges. -/
theorem checkPermissions_baseline_witness :
    (State.mk [] none []).previousPermissions.length = 0 ∧
    (checkPermissions (DB.ofRows [(str "monitorado", str "SELECT", str "public", str "users")]
        [(str "monitorado", str "USAGE", str "public")] []) WriteOutcome.ok
        (State.mk [] none [])).previousPermissions =
      collected [(str "monitorado", str "SELECT", str "public", str "users")]
        [(str "monitorado", str "USAGE", str "public")] [] ∧
    collected [(str "monitorado", str "SELECT", str "public", str "users")]
        [(str "monitorado", str "USAGE", str "public")] [] =
      [(str "TABLE:monitorado:SELECT:public:users", true),
        (str "SCHEMA:monitorado:USAGE:public", true)] :=
  ⟨rfl, (checkPermissions_baseline _ _ _ WriteOutcome.ok (State.mk [] none []) rfl).1, by decide⟩

/-- The failures the program checks for: when `db.Query` returns an error or a row fails to
scan, the cycle leaves `previousPermissions` and the state file as they were, and its only
event is one error line: nothing is reported and nothing is written. -/
theorem checkPermissions_checked_failure (db : DB) (w : WriteOutcome) (st : State)
    (h : db.FailsChecked) :
    (checkPermissions db w st).previousPermissions = st.previousPermissions ∧
    (checkPermissions db w st).file = st.file ∧
    ∃ format err, (checkPermissions db w st).events = st.events ++ [Event.printfErr format err] := by
  have key : ∃ format err, checkPermissions db w st = st.printfErr format err := by
    unfold checkPermissions
    simp only []
    split
    · exact ⟨_, _, rfl⟩
    next rows1 hq1 =>
    split
    · exact ⟨_, _, rfl⟩
    next c1 hs1 =>
    split
    · exact ⟨_, _, rfl⟩
    next rows2 hq2 =>
    split
    · exact ⟨_, _, rfl⟩
    next c2 hs2 =>
    split
    · exact ⟨_, _, rfl⟩
    next rows3 hq3 =>
    split
    · exact ⟨_, _, rfl⟩
    next c3 hs3 =>
    exfalso
    rcases h with h | h | h
    · rw [hq1] at h
      obtain ⟨err, herr⟩ := h
      exact scanTableRows_no_error hs1 err herr
    · rw [hq2] at h
      obtain ⟨err, herr⟩ := h
      exact scanSchemaRows_no_error hs2 err herr
    · rw [hq3] at h
      obtain ⟨err, herr⟩ := h
      exact scanDatabaseRows_no_error hs3 err herr
  obtain ⟨format, err, heq⟩ := key
  rw [heq]
  exact ⟨rfl, rfl, format, err, rfl⟩

/-- C5, at the failing input: a first cycle records the privileges on `users` and `orders`; in
the next cycle the table query delivers the row of `users` and then breaks off with an error,
which `rows.Next` turns into the end of the loop.  The query has failed, yet the cycle replaces
`previousPermissions` by the partial snapshot, reports the privilege on `orders` as removed and
rewrites the state file. -/
theorem checkPermissions_failure_partial :
    DB.Fails ⟨.ok ⟨[.ok (str "monitorado", str "SELECT", str "public", str "users")],
        some "connection reset"⟩, .ok ⟨[], none⟩, .ok ⟨[], none⟩⟩ ∧
    (checkPermissions (DB.ofRows [(str "monitorado", str "SELECT", str "public", str "users"),
        (str "monitorado", str "SELECT", str "public", str "orders")] [] []) WriteOutcome.ok
      ⟨[], none, []⟩).previousPermissions =
      [(str "TABLE:monitorado:SELECT:public:users", true),
        (str "TABLE:monitorado:SELECT:public:orders", true)] ∧
    (checkPermissions ⟨.ok ⟨[.ok (str "monitorado", str "SELECT", str "public", str "users")],
        some "connection reset"⟩, .ok ⟨[], none⟩, .ok ⟨[], none⟩⟩ WriteOutcome.ok
      (checkPermissions (DB.ofRows [(str "monitorado", str "SELECT", str "public", str "users"),
        (str "monitorado", str "SELECT", str "public", str "orders")] [] []) WriteOutcome.ok
        ⟨[], none, []⟩)) =
      { previousPermissions := [(str "TABLE:monitorado:SELECT:public:users", true)]
        file := some (str "\x7b\n  \"TABLE:monitorado:SELECT:public:users\": true\n\x7d")
        events := [Event.println "Iniciando monitoramento...",
          Event.writeFile stateFile (str ("\x7b\n  \"TABLE:monitorado:SELECT:public:orders\": true,"
            ++ "\n  \"TABLE:monitorado:SELECT:public:users\": true\n\x7d")),
          Event.printf changesFormat (str "REMOVIDO: TABLE:monitorado:SELECT:public:orders"),
          Event.writeFile stateFile
            (str "\x7b\n  \"TABLE:monitorado:SELECT:public:users\": true\n\x7d")] } := by
  refine ⟨Or.inl (Or.inr rfl), by decide, by decide⟩

/-- C6: after a cycle whose three queries succeed, `previousPermissions` holds exactly the keys
of the rows, each once and each with `true`, whatever it held before; the cycle then saves: it
calls `os.WriteFile` with the encoding of that snapshot, which becomes the contents of the state
file when the write succeeds. -/
theorem checkPermissions_replaces (ts : List (GoString × GoString × GoString × GoString))
    (ss : List (GoString × GoString × GoString)) (ds : List (GoString × GoString))
    (w : WriteOutcome) (P : State) :
    (∀ k, k ∈ (checkPermissions (DB.ofRows ts ss ds) w P).previousPermissions.keys ↔
      k ∈ rowKeys ts ss ds) ∧
    (checkPermissions (DB.ofRows ts ss ds) w P).previousPermissions.AllTrue ∧
    (checkPermissions (DB.ofRows ts ss ds) w P).previousPermissions.WF ∧
    (∃ evs, checkPermissions (DB.ofRows ts ss ds) w P =
      saveState w ⟨(checkPermissions (DB.ofRows ts ss ds) w P).previousPermissions, P.file,
        P.events ++ evs⟩) ∧
    ∃ data evs,
      jsonMarshalIndent (checkPermissions (DB.ofRows ts ss ds) w P).previousPermissions
        = .ok data ∧
      (checkPermissions (DB.ofRows ts ss ds) w P).events = P.events ++ evs ∧
      Event.writeFile stateFile data ∈ evs ∧
      (w = WriteOutcome.ok → (checkPermissions (DB.ofRows ts ss ds) w P).file = some data) := by
  have h := checkPermissions_ofRows ts ss ds w P
  have hp : (checkPermissions (DB.ofRows ts ss ds) w P).previousPermissions = collected ts ss ds := by
    rw [h, saveState_previousPermissions]
  rw [hp]
  refine ⟨mem_keys_collected ts ss ds, collected_AllTrue ts ss ds, collected_WF ts ss ds, ?_, ?_⟩
  · by_cases h1 : P.previousPermissions.length > 0
    · by_cases h2 : (detectChanges P.previousPermissions (collected ts ss ds)).length > 0
      · simp only [h1, h2, if_true] at h
        exact ⟨_, h⟩
      · simp only [h1, h2, if_true, if_false] at h
        exact ⟨[], by simpa using h⟩
    · simp only [h1, if_false] at h
      exact ⟨_, h⟩
  · rw [h]
    generalize hev : (if P.previousPermissions.length > 0 then
        if (detectChanges P.previousPermissions (collected ts ss ds)).length > 0 then
          P.events ++ [Event.printf changesFormat
            (stringsJoin (detectChanges P.previousPermissions (collected ts ss ds)) (str ", "))]
        else P.events
      else P.events ++ [Event.println "Iniciando monitoramento..."]) = evs0
    have hpre : ∃ pre, evs0 = P.events ++ pre := by
      rw [← hev]
      split
      · split
        · exact ⟨_, rfl⟩
        · exact ⟨[], by simp⟩
      · exact ⟨_, rfl⟩
    obtain ⟨pre, hpre⟩ := hpre
    obtain ⟨data, hdata, hfile, errs, he, _⟩ := saveState_events w
      { previousPermissions := collected ts ss ds, file := P.file, events := evs0 }
    refine ⟨data, pre ++ Event.writeFile stateFile data :: errs, hdata, ?_, by simp, hfile⟩
    rw [he, hpre]
    simp


/-! ## UTF-8 -/

/-- A Unicode scalar value: a rune that is not a surrogate and not above U+10FFFF. -/
theorem char_scalar (c : Char) : c.toNat < 0xD800 ∨ (0xE000 ≤ c.toNat ∧ c.toNat < 0x110000) := by
  have h : c.toNat.isValidChar := c.valid
  unfold Nat.isValidChar at h
  omega

theorem decodeRune_encodeRune (r : Nat) (hr : r < 0xD800 ∨ (0xE000 ≤ r ∧ r < 0x110000))
    (rest : List Nat) :
    decodeRune (encodeRune r ++ rest) = (r, (encodeRune r).length) := by
  unfold encodeRune
  by_cases h1 : r ≤ 0x7F
  · have : r < 0x80 := by omega
    simp [h1, decodeRune, this]
  rw [if_neg h1]
  by_cases h2 : r ≤ 0x7FF
  · rw [if_pos h2]
    simp only [decodeRune, List.cons_append, List.nil_append, List.length_cons]
    have a1 : ¬ (0xC0 + r / 64 < 0x80) := by omega
    have a2 : ¬ (0xC0 + r / 64 < 0xC2 ∨ 0xF4 < 0xC0 + r / 64) := by omega
    have a3 : 0xC0 + r / 64 < 0xE0 := by omega
    have a4 : ¬ (0xC0 + r / 64 = 0xE0) := by omega
    have a5 : ¬ (0xC0 + r / 64 = 0xF0) := by omega
    have a6 : ¬ (0xC0 + r / 64 = 0xED) := by omega
    have a7 : ¬ (0xC0 + r / 64 = 0xF4) := by omega
    have a8 : ¬ (0x80 + r % 64 < 0x80 ∨ 0xBF < 0x80 + r % 64) := by omega
    have a9 : (0xC0 + r / 64) % 32 * 64 + (0x80 + r % 64) % 64 = r := by omega
    have a10 : ¬ (rest.length + 1 + 1 < 2) := by omega
    simp only [a1, a2, a3, a4, a5, a6, a7, a8, a9, a10, if_true, if_false, le_refl, List.length_nil]
  rw [if_neg h2]
  have h3 : ¬ (0x10FFFF < r ∨ (0xD800 ≤ r ∧ r ≤ 0xDFFF)) := by omega
  rw [if_neg h3]
  by_cases h4 : r ≤ 0xFFFF
  · rw [if_pos h4]
    simp only [decodeRune, List.cons_append, List.nil_append, List.length_cons]
    have a1 : ¬ (0xE0 + r / 4096 < 0x80) := by omega
    have a2 : ¬ (0xE0 + r / 4096 < 0xC2 ∨ 0xF4 < 0xE0 + r / 4096) := by omega
    have a3 : ¬ (0xE0 + r / 4096 < 0xE0) := by omega
    have a3b : 0xE0 + r / 4096 < 0xF0 := by omega
    have a5 : ¬ (0xE0 + r / 4096 = 0xF0) := by omega
    have a7 : ¬ (0xE0 + r / 4096 = 0xF4) := by omega
    have a8 : ¬ (0x80 + r % 64 < 0x80 ∨ 0xBF < 0x80 + r % 64) := by omega
    have a9 : (0xE0 + r / 4096) % 16 * 4096 + (0x80 + r / 64 % 64) % 64 * 64
        + (0x80 + r % 64) % 64 = r := by omega
    have a10 : ¬ (rest.length + 1 + 1 + 1 < 3) := by omega
    have a11 : ¬ ((3 : Nat) ≤ 2) := by omega
    have a12 : ¬ (0x80 + r / 64 % 64 <
          (if 0xE0 + r / 4096 = 0xE0 then 0xA0 else 0x80) ∨
        (if 0xE0 + r / 4096 = 0xED then 0x9F else 0xBF) < 0x80 + r / 64 % 64) := by
      split <;> split <;> omega
    simp only [a1, a2, a3, a3b, a5, a7, a8, a9, a10, a11, a12, if_true, if_false, le_refl,
      List.length_nil]
  · rw [if_neg h4]
    simp only [decodeRune, List.cons_append, List.nil_append, List.length_cons]
    have a1 : ¬ (0xF0 + r / 262144 < 0x80) := by omega
    have a2 : ¬ (0xF0 + r / 262144 < 0xC2 ∨ 0xF4 < 0xF0 + r / 262144) := by omega
    have a3 : ¬ (0xF0 + r / 262144 < 0xE0) := by omega
    have a3b : ¬ (0xF0 + r / 262144 < 0xF0) := by omega
    have a4 : ¬ (0xF0 + r / 262144 = 0xE0) := by omega
    have a6 : ¬ (0xF0 + r / 262144 = 0xED) := by omega
    have a8 : ¬ (0x80 + r % 64 < 0x80 ∨ 0xBF < 0x80 + r % 64) := by omega
    have a8b : ¬ (0x80 + r / 64 % 64 < 0x80 ∨ 0xBF < 0x80 + r / 64 % 64) := by omega
    have a9 : (0xF0 + r / 262144) % 8 * 262144 + (0x80 + r / 4096 % 64) % 64 * 4096
        + (0x80 + r / 64 % 64) % 64 * 64 + (0x80 + r % 64) % 64 = r := by omega
    have a10 : ¬ (rest.length + 1 + 1 + 1 + 1 < 4) := by omega
    have a11 : ¬ ((4 : Nat) ≤ 2) := by omega
    have a11b : ¬ ((4 : Nat) ≤ 3) := by omega
    have a12 : ¬ (0x80 + r / 4096 % 64 <
          (if 0xF0 + r / 262144 = 0xF0 then 0x90 else 0x80) ∨
        (if 0xF0 + r / 262144 = 0xF4 then 0x8F else 0xBF) < 0x80 + r / 4096 % 64) := by
      split <;> split <;> omega
    simp only [a1, a2, a3, a3b, a4, a6, a8, a8b, a9, a10, a11, a11b, a12, if_true, if_false,
      le_refl, List.length_nil]

/-- The encoding of a rune from 0x80 on starts with a byte from 0x80 on. -/
theorem encodeRune_cons (r : Nat) (hr : 0x80 ≤ r) :
    ∃ b tl, encodeRune r = b :: tl ∧ 0x80 ≤ b := by
  unfold encodeRune
  have h1 : ¬ r ≤ 0x7F := by omega
  rw [if_neg h1]
  split
  · exact ⟨_, _, rfl, by omega⟩
  · split
    · exact ⟨_, _, rfl, by omega⟩
    · split
      · exact ⟨_, _, rfl, by omega⟩
      · exact ⟨_, _, rfl, by omega⟩

theorem encodeRune_length_pos (r : Nat) : 1 ≤ (encodeRune r).length := by
  unfold encodeRune
  repeat' split
  all_goals simp

theorem encodeRune_ascii (r : Nat) (hr : r < 0x80) : encodeRune r = [r] := by
  unfold encodeRune
  rw [if_pos (by omega)]


/-! ## The JSON encoding of a snapshot -/

theorem encodeRune_length_two (r : Nat) (hr : 0x80 ≤ r) : 2 ≤ (encodeRune r).length := by
  unfold encodeRune
  have h1 : ¬ r ≤ 0x7F := by omega
  rw [if_neg h1]
  repeat' split
  all_goals simp

theorem appendStringLoop_cons (fuel b : Nat) (rest : List Nat) :
    appendStringLoop (fuel + 1) (b :: rest) =
      if b < 0x80 then appendStringByte b ++ appendStringLoop fuel rest
      else if (decodeRune (b :: rest)).1 = runeError ∧ (decodeRune (b :: rest)).2 = 1 then
        str "\\ufffd" ++ appendStringLoop fuel rest
      else if (decodeRune (b :: rest)).1 = 0x2028 ∨ (decodeRune (b :: rest)).1 = 0x2029 then
        str "\\u202" ++ [hexDigit ((decodeRune (b :: rest)).1 % 16)] ++
          appendStringLoop fuel (rest.drop ((decodeRune (b :: rest)).2 - 1))
      else
        (b :: rest).take (decodeRune (b :: rest)).2 ++
          appendStringLoop fuel (rest.drop ((decodeRune (b :: rest)).2 - 1)) := by
  rfl

/-- The loop of `appendString` on the encoding of a rune, one step. -/
theorem appendStringLoop_rune (fuel r : Nat)
    (hr : r < 0xD800 ∨ (0xE000 ≤ r ∧ r < 0x110000)) (rest : List Nat) :
    appendStringLoop (fuel + 1) (encodeRune r ++ rest) =
      appendStringRune r ++ appendStringLoop fuel rest := by
  unfold appendStringRune
  by_cases h1 : r < 0x80
  · rw [encodeRune_ascii r h1, if_pos h1]
    simp only [List.cons_append, List.nil_append, appendStringLoop_cons, if_pos h1]
  · rw [if_neg h1]
    have hd := decodeRune_encodeRune r hr rest
    have hl := encodeRune_length_two r (by omega)
    obtain ⟨b, tl, hb, hb80⟩ := encodeRune_cons r (by omega)
    rw [hb] at hd hl ⊢
    simp only [List.cons_append] at hd ⊢
    have hb2 : ¬ b < 0x80 := by omega
    have hlen : ¬ ((b :: tl).length = 1) := by omega
    have hdrop : List.drop ((b :: tl).length - 1) (tl ++ rest) = rest := by
      simp
    have htake : List.take (b :: tl).length (b :: (tl ++ rest)) = b :: tl := by
      simp
    rw [appendStringLoop_cons, if_neg hb2, hd]
    simp only [hlen, and_false, if_false, hdrop, htake]
    split
    · rfl
    · simp

theorem appendStringLoop_nil (fuel : Nat) : appendStringLoop fuel [] = [] := by
  cases fuel <;> rfl

/-- The loop of `appendString` on the encoding of a text. -/
theorem appendStringLoop_text (cs : List Char) (fuel : Nat) (hf : cs.length ≤ fuel) :
    appendStringLoop fuel (cs.flatMap (fun c => encodeRune c.toNat)) =
      cs.flatMap (fun c => appendStringRune c.toNat) := by
  induction cs generalizing fuel with
  | nil => simp [appendStringLoop_nil]
  | cons c cs ih =>
    obtain ⟨n, rfl⟩ : ∃ n, fuel = n + 1 := ⟨fuel - 1, by simp at hf; omega⟩
    rw [List.flatMap_cons, List.flatMap_cons, appendStringLoop_rune n c.toNat (char_scalar c),
      ih n (by simp at hf; omega)]

theorem length_le_flatMap {α β : Type} (l : List α) (f : α → List β)
    (h : ∀ a, 1 ≤ (f a).length) : l.length ≤ (l.flatMap f).length := by
  induction l with
  | nil => simp
  | cons a l ih =>
    have := h a
    simp only [List.flatMap_cons, List.length_append, List.length_cons]
    omega

theorem appendString_text (t : String) :
    appendString (str t) =
      0x22 :: (t.data.flatMap (fun c => appendStringRune c.toNat) ++ [0x22]) := by
  unfold appendString
  have h := appendStringLoop_text t.data (str t).length
    (length_le_flatMap t.data _ (fun c => encodeRune_length_pos c.toNat))
  unfold str at h ⊢
  rw [h]
  simp

theorem hexVal_hexDigit (k : Nat) (hk : k < 16) : hexVal (hexDigit k) = some k := by
  interval_cases k <;> rfl

theorem readString_cons (fuel c : Nat) (rest : List Nat) (acc : GoString) :
    readString (fuel + 1) (c :: rest) acc =
      if c = 0x22 then some (acc, rest)
      else if c = 0x5C then
        match rest with
        | [] => none
        | e :: rest2 =>
          if e = 0x75 then
            match getu4 (c :: rest) with
            | none => none
            | some rr =>
              let rest3 := rest2.drop 4
              if 0xD800 ≤ rr ∧ rr < 0xE000 then
                match getu4 rest3 with
                | some rr1 =>
                  if rr < 0xDC00 ∧ 0xDC00 ≤ rr1 ∧ rr1 < 0xE000 then
                    readString fuel (rest3.drop 6)
                      (acc ++ encodeRune ((rr - 0xD800) * 1024 + (rr1 - 0xDC00) + 0x10000))
                  else readString fuel rest3 (acc ++ encodeRune runeError)
                | none => readString fuel rest3 (acc ++ encodeRune runeError)
              else readString fuel rest3 (acc ++ encodeRune rr)
          else
            match unescape e with
            | some ch => readString fuel rest2 (acc ++ [ch])
            | none => none
      else if c < 0x20 then none
      else if c < 0x80 then readString fuel rest (acc ++ [c])
      else
        readString fuel (rest.drop ((decodeRune (c :: rest)).2 - 1))
          (acc ++ encodeRune (decodeRune (c :: rest)).1) := by
  rfl

/-- A byte written as itself is read back as itself. -/
theorem readString_plain (fuel c : Nat) (t : List Nat) (acc : GoString) (h1 : c ≠ 0x22)
    (h2 : c ≠ 0x5C) (h3 : ¬ c < 0x20) (h4 : c < 0x80) :
    readString (fuel + 1) (c :: t) acc = readString fuel t (acc ++ [c]) := by
  rw [readString_cons, if_neg h1, if_neg h2, if_neg h3, if_pos h4]

/-- A one-letter escape is read back as the byte `unescape` gives. -/
theorem readString_escape (fuel e ch : Nat) (t : List Nat) (acc : GoString) (h1 : e ≠ 0x75)
    (h2 : unescape e = some ch) :
    readString (fuel + 1) (0x5C :: e :: t) acc = readString fuel t (acc ++ [ch]) := by
  rw [readString_cons, if_neg (by decide), if_pos rfl]
  simp only [if_neg h1, h2]

/-- A `\uXXXX` escape of a code unit below the surrogates is read back as that rune. -/
theorem readString_u4 (fuel a b c d x3 x2 x1 x0 : Nat) (t : List Nat) (acc : GoString)
    (ha : hexVal a = some x3) (hb : hexVal b = some x2) (hc : hexVal c = some x1)
    (hd : hexVal d = some x0) (hlt : x3 * 4096 + x2 * 256 + x1 * 16 + x0 < 0xD800) :
    readString (fuel + 1) (0x5C :: 0x75 :: a :: b :: c :: d :: t) acc =
      readString fuel t (acc ++ encodeRune (x3 * 4096 + x2 * 256 + x1 * 16 + x0)) := by
  have hg : getu4 (0x5C :: 0x75 :: a :: b :: c :: d :: t)
      = some (x3 * 4096 + x2 * 256 + x1 * 16 + x0) := by
    simp [getu4, ha, hb, hc, hd]
  have hns : ¬ (0xD800 ≤ x3 * 4096 + x2 * 256 + x1 * 16 + x0 ∧
      x3 * 4096 + x2 * 256 + x1 * 16 + x0 < 0xE000) := by omega
  rw [readString_cons, if_neg (by decide), if_pos rfl]
  simp only [if_pos, hg, List.drop_succ_cons, List.drop_zero, if_neg hns]

theorem str_esc_b : str "\\b" = [0x5C, 0x62] := by decide

theorem str_esc_f : str "\\f" = [0x5C, 0x66] := by decide

theorem str_esc_n : str "\\n" = [0x5C, 0x6E] := by decide

theorem str_esc_r : str "\\r" = [0x5C, 0x72] := by decide

theorem str_esc_t : str "\\t" = [0x5C, 0x74] := by decide

theorem str_esc_u00 : str "\\u00" = [0x5C, 0x75, 0x30, 0x30] := by decide

theorem str_esc_u202 : str "\\u202" = [0x5C, 0x75, 0x32, 0x30, 0x32] := by decide

/-- The decoder reads what `appendString` writes for a byte below 0x80 back as that byte. -/
theorem readString_appendStringByte (fuel b : Nat) (hb : b < 0x80) (t : List Nat)
    (acc : GoString) :
    readString (fuel + 1) (appendStringByte b ++ t) acc = readString fuel t (acc ++ [b]) := by
  unfold appendStringByte
  by_cases hs : htmlSafe b = true
  · rw [if_pos hs]
    simp only [htmlSafe, Bool.and_eq_true, decide_eq_true_eq, bne_iff_ne, ne_eq] at hs
    exact readString_plain fuel b t acc hs.1.1.1.1.2 hs.2 (by omega) hb
  rw [if_neg hs]
  by_cases h1 : b = 0x5C ∨ b = 0x22
  · rw [if_pos h1]
    rcases h1 with rfl | rfl
    · exact readString_escape fuel _ _ t acc (by decide) rfl
    · exact readString_escape fuel _ _ t acc (by decide) rfl
  rw [if_neg h1]
  by_cases h2 : b = 0x08
  · rw [if_pos h2, h2, str_esc_b]
    exact readString_escape fuel _ _ t acc (by decide) rfl
  rw [if_neg h2]
  by_cases h3 : b = 0x0C
  · rw [if_pos h3, h3, str_esc_f]
    exact readString_escape fuel _ _ t acc (by decide) rfl
  rw [if_neg h3]
  by_cases h4 : b = 0x0A
  · rw [if_pos h4, h4, str_esc_n]
    exact readString_escape fuel _ _ t acc (by decide) rfl
  rw [if_neg h4]
  by_cases h5 : b = 0x0D
  · rw [if_pos h5, h5, str_esc_r]
    exact readString_escape fuel _ _ t acc (by decide) rfl
  rw [if_neg h5]
  by_cases h6 : b = 0x09
  · rw [if_pos h6, h6, str_esc_t]
    exact readString_escape fuel _ _ t acc (by decide) rfl
  rw [if_neg h6, str_esc_u00]
  have hx := readString_u4 fuel 0x30 0x30 (hexDigit (b / 16)) (hexDigit (b % 16))
    0 0 (b / 16) (b % 16) t acc rfl rfl
    (hexVal_hexDigit _ (by omega)) (hexVal_hexDigit _ (Nat.mod_lt _ (by decide))) (by omega)
  have hval : 0 * 4096 + 0 * 256 + b / 16 * 16 + b % 16 = b := by omega
  rw [hval, encodeRune_ascii b hb] at hx
  exact hx

/-- The decoder reads what `appendString` writes for a rune back as the encoding of the
rune. -/
theorem readString_appendStringRune (fuel r : Nat)
    (hr : r < 0xD800 ∨ (0xE000 ≤ r ∧ r < 0x110000)) (t : List Nat) (acc : GoString) :
    readString (fuel + 1) (appendStringRune r ++ t) acc =
      readString fuel t (acc ++ encodeRune r) := by
  unfold appendStringRune
  by_cases h1 : r < 0x80
  · rw [if_pos h1, encodeRune_ascii r h1]
    exact readString_appendStringByte fuel r h1 t acc
  rw [if_neg h1]
  by_cases hu : r = 0x2028 ∨ r = 0x2029
  · rw [if_pos hu, str_esc_u202]
    rcases hu with rfl | rfl
    · exact readString_u4 fuel 0x32 0x30 0x32 _ 2 0 2 8 t acc rfl rfl rfl rfl (by decide)
    · exact readString_u4 fuel 0x32 0x30 0x32 _ 2 0 2 9 t acc rfl rfl rfl rfl (by decide)
  rw [if_neg hu]
  have hd := decodeRune_encodeRune r hr t
  obtain ⟨b, tl, hb, hb80⟩ := encodeRune_cons r (by omega)
  rw [hb] at hd ⊢
  simp only [List.cons_append] at hd ⊢
  rw [readString_cons, if_neg (by omega), if_neg (by omega), if_neg (by omega),
    if_neg (by omega), hd]
  simp [hb]

/-- The decoder reads the text `appendString` writes for a text back as its bytes. -/
theorem readString_text (cs : List Char) (fuel : Nat) (acc : GoString) (rest : List Nat)
    (hf : cs.length + 1 ≤ fuel) :
    readString fuel (cs.flatMap (fun c => appendStringRune c.toNat) ++ 0x22 :: rest) acc =
      some (acc ++ cs.flatMap (fun c => encodeRune c.toNat), rest) := by
  induction cs generalizing fuel acc with
  | nil =>
    obtain ⟨n, rfl⟩ : ∃ n, fuel = n + 1 := ⟨fuel - 1, by simp at hf; omega⟩
    simp [readString_cons]
  | cons c cs ih =>
    obtain ⟨n, rfl⟩ : ∃ n, fuel = n + 1 := ⟨fuel - 1, by simp at hf; omega⟩
    rw [List.flatMap_cons, List.append_assoc, readString_appendStringRune n c.toNat (char_scalar c),
      ih n _ (by simp at hf; omega)]
    simp

theorem appendStringRune_length (r : Nat) : 1 ≤ (appendStringRune r).length := by
  unfold appendStringRune appendStringByte
  have := encodeRune_length_pos r
  repeat' split
  all_goals first | assumption | simp [str_esc_b, str_esc_f, str_esc_n, str_esc_r, str_esc_t, str_esc_u00, str_esc_u202]

/-- Reading a key that `appendString` wrote gives the key back, whatever follows. -/
theorem readString_key (t : String) (rest : List Nat) :
    readString (t.data.flatMap (fun c => appendStringRune c.toNat) ++ 0x22 :: rest).length
      (t.data.flatMap (fun c => appendStringRune c.toNat) ++ 0x22 :: rest) [] =
      some (str t, rest) := by
  have h := readString_text t.data
    (t.data.flatMap (fun c => appendStringRune c.toNat) ++ 0x22 :: rest).length [] rest
    (by
      have := length_le_flatMap t.data (fun c => appendStringRune c.toNat)
        (fun c => appendStringRune_length c.toNat)
      simp only [List.length_append, List.length_cons]
      omega)
  rw [h]
  simp [str]

theorem str_colon_space : str ": " = [0x3A, 0x20] := by decide

theorem str_true : str "true" = [0x74, 0x72, 0x75, 0x65] := by decide

theorem str_false : str "false" = [0x66, 0x61, 0x6C, 0x73, 0x65] := by decide

theorem str_null : str "null" = [0x6E, 0x75, 0x6C, 0x6C] := by decide

theorem str_comma_indent : str ",\n  " = [0x2C, 0x0A, 0x20, 0x20] := by decide

theorem str_close : str "\n\x7d" = [0x0A, 0x7D] := by decide

theorem str_open : str "\x7b\n  " = [0x7B, 0x0A, 0x20, 0x20] := by decide

theorem str_empty_object : str "\x7b\x7d" = [0x7B, 0x7D] := by decide

/-- The text of a member whose key is a text: the quote, the escaped key, the quote, the colon,
a space, the boolean. -/
theorem marshalMember_text (t : String) (v : Bool) (tail : List Nat) :
    marshalMember (str t, v) ++ tail =
      0x22 :: (t.data.flatMap (fun c => appendStringRune c.toNat) ++
        0x22 :: 0x3A :: 0x20 :: (appendBool v ++ tail)) := by
  simp [marshalMember, appendString_text, str_colon_space]

theorem marshalRest_nil : marshalRest [] = [0x0A, 0x7D] := by
  simp [marshalRest, str_close]

theorem marshalRest_cons (e : GoString × Bool) (es : GoMap) :
    marshalRest (e :: es) = 0x2C :: 0x0A :: 0x20 :: 0x20 :: (marshalMember e ++ marshalRest es) := by
  simp [marshalRest, str_comma_indent]

theorem scanKey_text (t : String) (r : List Nat) :
    scanKey (0x22 :: (t.data.flatMap (fun c => appendStringRune c.toNat) ++ 0x22 :: 0x3A :: r))
      = some r := by
  unfold scanKey
  simp only []
  rw [if_pos trivial, readString_key]
  simp [skipSpace, isSpace]

theorem appendBool_true : appendBool true = [0x74, 0x72, 0x75, 0x65] := by decide

theorem appendBool_false : appendBool false = [0x66, 0x61, 0x6C, 0x73, 0x65] := by decide

theorem scanLiteral_true (t : List Nat) :
    scanLiteral (0x74 :: 0x72 :: 0x75 :: 0x65 :: t) = some t := by
  unfold scanLiteral
  rw [str_true, str_false, str_null]
  simp [List.isPrefixOf]

theorem scanLiteral_false (t : List Nat) :
    scanLiteral (0x66 :: 0x61 :: 0x6C :: 0x73 :: 0x65 :: t) = some t := by
  unfold scanLiteral
  rw [str_true, str_false, str_null]
  simp [List.isPrefixOf]

/-- The scanner reads a boolean that `appendBool` wrote. -/
theorem scanJSON_bool (fuel : Nat) (stack : List ParseState) (v : Bool) (t : List Nat) :
    scanJSON (fuel + 1) true stack (appendBool v ++ t) = scanJSON fuel false stack t := by
  cases v
  · rw [appendBool_false]
    conv_lhs => unfold scanJSON
    simp [skipSpace, isSpace, isDigit, scanLiteral_false]
  · rw [appendBool_true]
    conv_lhs => unfold scanJSON
    simp [skipSpace, isSpace, isDigit, scanLiteral_true]

theorem skipSpace_appendBool (v : Bool) (t : List Nat) :
    skipSpace (0x20 :: (appendBool v ++ t)) = appendBool v ++ t := by
  cases v
  · rw [appendBool_false]
    simp [skipSpace, isSpace]
  · rw [appendBool_true]
    simp [skipSpace, isSpace]

/-- The scanner reads a boolean that `appendBool` wrote, after a space. -/
theorem scanJSON_appendBool (fuel : Nat) (stack : List ParseState) (v : Bool) (t : List Nat) :
    scanJSON (fuel + 1) true stack (0x20 :: (appendBool v ++ t)) = scanJSON fuel false stack t := by
  rw [← scanJSON_bool fuel stack v t]
  cases v
  · rw [appendBool_false]
    conv_lhs => unfold scanJSON
    conv_rhs => unfold scanJSON
    simp [skipSpace, isSpace]
  · rw [appendBool_true]
    conv_lhs => unfold scanJSON
    conv_rhs => unfold scanJSON
    simp [skipSpace, isSpace]

/-- The scanner accepts the members `marshalRest` writes and the closing brace. -/
theorem scanJSON_marshalRest (ts : List (String × Bool)) (fuel : Nat)
    (hf : 2 * ts.length + 2 ≤ fuel) :
    scanJSON fuel false [ParseState.object]
      (marshalRest (ts.map (fun e => (str e.1, e.2)))) = some [] := by
  induction ts generalizing fuel with
  | nil =>
    obtain ⟨n, rfl⟩ : ∃ n, fuel = n + 2 := ⟨fuel - 2, by simp at hf; omega⟩
    simp [marshalRest_nil, scanJSON, skipSpace, isSpace]
  | cons e ts ih =>
    obtain ⟨n, rfl⟩ : ∃ n, fuel = n + 2 := ⟨fuel - 2, by simp at hf; omega⟩
    rw [List.map_cons, marshalRest_cons, marshalMember_text]
    have hk := scanKey_text e.1
      (0x20 :: (appendBool e.2 ++ marshalRest (ts.map (fun e => (str e.1, e.2)))))
    have hb := scanJSON_appendBool n [ParseState.object] e.2
      (marshalRest (ts.map (fun e => (str e.1, e.2))))
    have hi := ih n (by simp at hf; omega)
    rw [hi] at hb
    conv_lhs => unfold scanJSON
    simp [skipSpace, isSpace, hk, hb]

theorem marshalRest_length (es : GoMap) : 2 * es.length + 2 ≤ (marshalRest es).length := by
  induction es with
  | nil => simp [marshalRest_nil]
  | cons e es ih =>
    rw [marshalRest_cons]
    simp only [List.length_cons, List.length_append]
    omega

/-- The text `jsonMarshalIndent` writes for text keys passes `checkValid`. -/
theorem checkValid_marshal (e : String × Bool) (ts : List (String × Bool)) :
    checkValid (str "\x7b\n  " ++ marshalMember (str e.1, e.2) ++
      marshalRest (ts.map (fun e => (str e.1, e.2)))) = true := by
  have hlen := marshalRest_length (ts.map (fun e => (str e.1, e.2)))
  rw [List.length_map] at hlen
  have hrest := scanJSON_marshalRest ts
  generalize marshalRest (ts.map (fun e => (str e.1, e.2))) = R at hlen hrest ⊢
  rw [List.append_assoc, marshalMember_text, str_open]
  have hk := scanKey_text e.1 (0x20 :: (appendBool e.2 ++ R))
  generalize hX : e.1.data.flatMap (fun c => appendStringRune c.toNat) ++
      0x22 :: 0x3A :: 0x20 :: (appendBool e.2 ++ R) = X at hk ⊢
  have hXlen : R.length ≤ X.length := by
    rw [← hX]
    simp only [List.length_append, List.length_cons]
    omega
  obtain ⟨n, hn⟩ : ∃ n, X.length = n ∧ 2 * ts.length + 2 ≤ n := ⟨_, rfl, by omega⟩
  have hb := scanJSON_appendBool (n + 4) [ParseState.object] e.2 R
  rw [hrest (n + 4) (by omega)] at hb
  unfold checkValid
  simp only [List.cons_append, List.nil_append, List.length_cons, hn.1]
  conv_lhs => unfold scanJSON
  simp [skipSpace, isSpace, maxNestingDepth, hk, hb]

theorem scanJSON_end_top (fuel : Nat) (s : List Nat) :
    scanJSON (fuel + 1) false [] s = some s := by
  unfold scanJSON
  rfl

theorem scanJSON_bool_top (fuel : Nat) (v : Bool) (R : List Nat) :
    scanJSON (fuel + 2) true [] (appendBool v ++ R) = some R := by
  rw [scanJSON_bool, scanJSON_end_top]

/-- The decoder reads one member written by `marshalMember` and stores it. -/
theorem decodeMembers_member (fuel : Nat) (t : String) (v : Bool) (R : List Nat) (m : GoMap) :
    decodeMembers (fuel + 1) (marshalMember (str t, v) ++ R) m none =
      match skipSpace R with
      | [] => none
      | d :: r5 =>
        if d = 0x2C then decodeMembers fuel (skipSpace r5) (m.set (str t) v) none
        else if d = 0x7D then some (m.set (str t) v, none)
        else none := by
  rw [marshalMember_text]
  have hs := readString_key t (0x3A :: 0x20 :: (appendBool v ++ R))
  conv_lhs => unfold decodeMembers
  simp only []
  rw [if_pos trivial, hs]
  have hcolon : skipSpace (0x3A :: 0x20 :: (appendBool v ++ R)) =
      0x3A :: 0x20 :: (appendBool v ++ R) := by
    simp [skipSpace, isSpace]
  simp only [hcolon]
  rw [if_pos trivial, skipSpace_appendBool]
  cases v
  · have hsc := scanJSON_bool_top (0x61 :: 0x6C :: 0x73 :: 0x65 :: R).length false R
    rw [appendBool_false] at hsc ⊢
    simp only [List.cons_append, List.nil_append] at hsc ⊢
    rw [hsc]
    simp [storeValue]
  · have hsc := scanJSON_bool_top (0x72 :: 0x75 :: 0x65 :: R).length true R
    rw [appendBool_true] at hsc ⊢
    simp only [List.cons_append, List.nil_append] at hsc ⊢
    rw [hsc]
    simp [storeValue]

/-- The decoder reads the members `jsonMarshalIndent` writes in order and stores them one by
one. -/
theorem decodeMembers_marshal (ts : List (String × Bool)) (e : String × Bool) (m : GoMap)
    (fuel : Nat) (hf : ts.length + 1 ≤ fuel) :
    decodeMembers fuel
        (marshalMember (str e.1, e.2) ++ marshalRest (ts.map (fun e => (str e.1, e.2)))) m none =
      some ((((str e.1, e.2)) :: ts.map (fun e => (str e.1, e.2))).foldl
        (fun (m : GoMap) e => m.set e.1 e.2) m, none) := by
  induction ts generalizing e m fuel with
  | nil =>
    obtain ⟨n, rfl⟩ : ∃ n, fuel = n + 1 := ⟨fuel - 1, by simp at hf; omega⟩
    rw [decodeMembers_member]
    simp [marshalRest_nil, skipSpace, isSpace]
  | cons e2 ts ih =>
    obtain ⟨n, rfl⟩ : ∃ n, fuel = n + 1 := ⟨fuel - 1, by simp at hf; omega⟩
    rw [decodeMembers_member, List.map_cons, marshalRest_cons]
    have ih2 := ih e2 (m.set (str e.1) e.2) n (by simp at hf; omega)
    have hsk : skipSpace (0x0A :: 0x20 :: 0x20 :: (marshalMember (str e2.1, e2.2) ++
        marshalRest (ts.map (fun e => (str e.1, e.2))))) =
        marshalMember (str e2.1, e2.2) ++ marshalRest (ts.map (fun e => (str e.1, e.2))) := by
      rw [marshalMember_text]
      simp [skipSpace, isSpace]
    have hsk0 : skipSpace (0x2C :: 0x0A :: 0x20 :: 0x20 :: (marshalMember (str e2.1, e2.2) ++
        marshalRest (ts.map (fun e => (str e.1, e.2))))) =
        0x2C :: 0x0A :: 0x20 :: 0x20 :: (marshalMember (str e2.1, e2.2) ++
        marshalRest (ts.map (fun e => (str e.1, e.2)))) := by
      simp [skipSpace, isSpace]
    simp only [hsk0]
    rw [if_pos trivial, hsk, ih2]
    simp

/-- A list of entries whose keys are well-formed UTF-8 is the encoding of a list of entries with
text keys. -/
theorem exists_text_entries (L : GoMap) (h : ∀ e ∈ L, ValidUTF8 e.1) :
    ∃ ts : List (String × Bool), L = ts.map (fun e => (str e.1, e.2)) := by
  induction L with
  | nil => exact ⟨[], rfl⟩
  | cons a L ih =>
    obtain ⟨ts, hts⟩ := ih (fun e he => h e (List.mem_cons_of_mem _ he))
    obtain ⟨t, ht⟩ := h a (List.mem_cons_self _ _)
    refine ⟨(t, a.2) :: ts, ?_⟩
    rw [List.map_cons, ← hts, ← ht]

theorem sortedEntries_perm (S : GoMap) : (sortedEntries S).Perm S :=
  List.perm_insertionSort _ S

theorem sortedEntries_WF {S : GoMap} (h : S.WF) : (sortedEntries S).WF := by
  unfold GoMap.WF GoMap.keys at *
  exact ((sortedEntries_perm S).map Prod.fst).nodup_iff.2 h

/-- Decoding the text of `jsonMarshalIndent` stores the sorted entries one by one and returns
no error, when the keys are well-formed UTF-8. -/
theorem jsonUnmarshal_jsonMarshalIndent (S m : GoMap) (data : GoString)
    (hv : ∀ e ∈ S, ValidUTF8 e.1) (h : jsonMarshalIndent S = .ok data) :
    jsonUnmarshal data m =
      ((sortedEntries S).foldl (fun (m : GoMap) e => m.set e.1 e.2) m, none) := by
  obtain ⟨ts, hts⟩ := exists_text_entries (sortedEntries S)
    (fun e he => hv e ((sortedEntries_perm S).mem_iff.1 he))
  unfold jsonMarshalIndent at h
  rw [hts] at h ⊢
  cases ts with
  | nil =>
    simp only [List.map_nil] at h
    cases h
    rfl
  | cons e ts =>
    simp only [List.map_cons] at h
    cases h
    have hvalid := checkValid_marshal e ts
    have hdec := decodeMembers_marshal ts e m
      (marshalMember (str e.1, e.2) ++ marshalRest (ts.map (fun e => (str e.1, e.2)))).length
      (by
        have := marshalRest_length (ts.map (fun e => (str e.1, e.2)))
        rw [List.length_map] at this
        simp only [List.length_append]
        omega)
    unfold jsonUnmarshal
    rw [hvalid]
    simp only [Bool.true_eq_false, if_false]
    rw [List.append_assoc, str_open]
    rw [marshalMember_text] at hdec ⊢
    generalize e.1.data.flatMap (fun c => appendStringRune c.toNat) ++
      0x22 :: 0x3A :: 0x20 ::
        (appendBool e.2 ++ marshalRest (ts.map (fun e => (str e.1, e.2)))) = X at hdec ⊢
    simp only [List.length_cons] at hdec
    simp only [List.cons_append, List.nil_append]
    simp [skipSpace, isSpace, hdec]

theorem GoMap.index_perm {A B : GoMap} (hA : A.WF) (hp : A.Perm B) (k : GoString) :
    A.index k = B.index k := by
  induction hp with
  | nil => rfl
  | @cons x l1 l2 _ ih =>
    have hA2 : GoMap.WF l1 := (List.nodup_cons.1 hA).2
    unfold GoMap.index at *
    by_cases hx : x.1 = k
    · simp [List.find?_cons, hx]
    · have := ih hA2
      simpa [List.find?_cons, hx] using this
  | swap x y l =>
    unfold GoMap.WF GoMap.keys at hA
    have hne : y.1 ≠ x.1 := by
      simp only [List.map_cons, List.nodup_cons, List.mem_cons, not_or] at hA
      exact hA.1.1
    unfold GoMap.index
    by_cases hx : x.1 = k
    · have hy : ¬ y.1 = k := fun h => hne (h.trans hx.symm)
      simp [List.find?_cons, hx, hy]
    · by_cases hy : y.1 = k
      · simp [List.find?_cons, hx, hy]
      · simp [List.find?_cons, hx, hy]
  | @trans l1 l2 l3 h1 _ ih1 ih2 =>
    have hB : GoMap.WF l2 := by
      unfold GoMap.WF GoMap.keys at *
      exact (h1.map Prod.fst).nodup_iff.1 hA
    exact (ih1 hA).trans (ih2 hB)

/-! ## The claim about the persisted state -/

/-- C7, counterexample: a snapshot with the keys of two tables whose names are the single bytes
`\xff` and `\xfe`, neither well-formed UTF-8.  `saveState` writes both names as the escape of
U+FFFD, and `loadState` reads the file back into a snapshot with one key, whose table name is
U+FFFD: two keys saved, one loaded, and it is a key of neither. -/
theorem saveState_loadState_counterexample :
    GoMap.WF [(str "TABLE:monitorado:SELECT:public:" ++ [0xFF], true),
      (str "TABLE:monitorado:SELECT:public:" ++ [0xFE], true)] ∧
    (saveState WriteOutcome.ok ⟨[(str "TABLE:monitorado:SELECT:public:" ++ [0xFF], true),
      (str "TABLE:monitorado:SELECT:public:" ++ [0xFE], true)], none, []⟩).file =
      some (str ("\x7b\n  \"TABLE:monitorado:SELECT:public:\\ufffd\": true,"
        ++ "\n  \"TABLE:monitorado:SELECT:public:\\ufffd\": true\n\x7d")) ∧
    (loadState none
      ⟨[], (saveState WriteOutcome.ok ⟨[(str "TABLE:monitorado:SELECT:public:" ++ [0xFF], true),
        (str "TABLE:monitorado:SELECT:public:" ++ [0xFE], true)], none, []⟩).file,
        []⟩).previousPermissions =
      [(str "TABLE:monitorado:SELECT:public:" ++ [0xEF, 0xBF, 0xBD], true)] ∧
    ¬ List.Perm (loadState none
      ⟨[], (saveState WriteOutcome.ok ⟨[(str "TABLE:monitorado:SELECT:public:" ++ [0xFF], true),
        (str "TABLE:monitorado:SELECT:public:" ++ [0xFE], true)], none, []⟩).file,
        []⟩).previousPermissions
      [(str "TABLE:monitorado:SELECT:public:" ++ [0xFF], true),
        (str "TABLE:monitorado:SELECT:public:" ++ [0xFE], true)] := by
  have h3 : (loadState none
      ⟨[], (saveState WriteOutcome.ok ⟨[(str "TABLE:monitorado:SELECT:public:" ++ [0xFF], true),
        (str "TABLE:monitorado:SELECT:public:" ++ [0xFE], true)], none, []⟩).file,
        []⟩).previousPermissions =
      [(str "TABLE:monitorado:SELECT:public:" ++ [0xEF, 0xBF, 0xBD], true)] := by decide
  refine ⟨by decide, by decide, h3, ?_⟩
  intro h
  have hl := h.length_eq
  rw [h3] at hl
  simp at hl

/-- C7, amended: for a snapshot `S` whose keys are well-formed UTF-8, when `saveState` writes
`S` to the state file and the write succeeds, and `loadState` then reads that file into an empty
`previousPermissions`, the loaded snapshot holds the entries of `S`: it is a rearrangement of
`S` (the entries sorted by key), each key reads the value it has in `S`, and every value is
`true` when every value of `S` is. -/
theorem saveState_loadState_roundtrip (S : GoMap) (hS : S.WF) (hv : ∀ e ∈ S, ValidUTF8 e.1)
    (file0 : Option GoString) (evs evs2 : List Event) :
    (loadState none
      ⟨[], (saveState WriteOutcome.ok ⟨S, file0, evs⟩).file, evs2⟩).previousPermissions
        = sortedEntries S ∧
    (sortedEntries S).Perm S ∧
    (∀ k, (loadState none
      ⟨[], (saveState WriteOutcome.ok ⟨S, file0, evs⟩).file, evs2⟩).previousPermissions.index k
        = S.index k) ∧
    (S.AllTrue → (loadState none
      ⟨[], (saveState WriteOutcome.ok ⟨S, file0, evs⟩).file, evs2⟩).previousPermissions.AllTrue) := by
  obtain ⟨data, hdata⟩ := jsonMarshalIndent_ok S
  have hfile : (saveState WriteOutcome.ok ⟨S, file0, evs⟩).file = some data := by
    simp [saveState, hdata]
  have hdec := jsonUnmarshal_jsonMarshalIndent S [] data hv hdata
  have hcopy := GoMap.foldl_set_copy (sortedEntries S) [] (by simpa using sortedEntries_WF hS)
  rw [hcopy, List.nil_append] at hdec
  have hload : (loadState none ⟨[], some data, evs2⟩).previousPermissions = sortedEntries S := by
    simp [loadState, hdec, State.println]
  rw [hfile, hload]
  refine ⟨rfl, sortedEntries_perm S, ?_, ?_⟩
  · intro k
    exact GoMap.index_perm (sortedEntries_WF hS) (sortedEntries_perm S) k
  · intro hall e he
    exact hall e ((sortedEntries_perm S).mem_iff.1 he)

/-- Witness of the amended C7: a snapshot of two keys, one with a character that is escaped,
one with a character of two bytes. -/
theorem saveState_loadState_roundtrip_witness :
    GoMap.WF [(str "TABLE:monitorado:SELECT:public:café", true),
      (str "SCHEMA:monitorado:USAGE:a<b", true)] ∧
    (∀ e ∈ ([(str "TABLE:monitorado:SELECT:public:café", true),
      (str "SCHEMA:monitorado:USAGE:a<b", true)] : GoMap), ValidUTF8 e.1) ∧
    (loadState none
      ⟨[], (saveState WriteOutcome.ok
        ⟨[(str "TABLE:monitorado:SELECT:public:café", true),
          (str "SCHEMA:monitorado:USAGE:a<b", true)], none, []⟩).file,
        []⟩).previousPermissions
      = [(str "SCHEMA:monitorado:USAGE:a<b", true),
          (str "TABLE:monitorado:SELECT:public:café", true)] := by
  have hv : ∀ e ∈ ([(str "TABLE:monitorado:SELECT:public:café", true),
      (str "SCHEMA:monitorado:USAGE:a<b", true)] : GoMap), ValidUTF8 e.1 := by
    intro e he
    rcases List.mem_cons.1 he with rfl | he
    · exact ⟨_, rfl⟩
    · rcases List.mem_cons.1 he with rfl | he
      · exact ⟨_, rfl⟩
      · cases he
  exact ⟨by decide, hv,
    (saveState_loadState_roundtrip
      [(str "TABLE:monitorado:SELECT:public:café", true),
        (str "SCHEMA:monitorado:USAGE:a<b", true)]
      (by decide) hv none [] []).1.trans (by decide)⟩
